import Mathlib

/-!
Shallow embedding of the Gmail Label Manager core (config.js, sync.js,
labelling.js, triggers.js).

The local store is the sheet: an ordered list of rows, each with an id cell
(column A) and a name cell (column B); rows below the header are modelled as a
`List SheetRow` (0-based index i stands for spreadsheet row i + HEADER_ROW + 1,
so stored JS row numbers are always ≥ 2 and hence truthy).  The remote store is
Gmail: a list of labels (id, name, type) plus, per label name, the list of
thread ids currently tagged with it, and a counter from which fresh opaque ids
are drawn.  `Gmail.Users.Labels.list('me')` is modelled by `listMe ok g`: the
`ok` flag is `false` when the remote listing fails or returns no usable payload
(the exception branch and the `!response || !response.labels` branch of
`getLabelMap` collapse to the same observable behaviour).

JS objects used as string-keyed maps (`labelMap`, `sheetLabelMap`) are modelled
by association lists with JS-object insert semantics (`objInsert`: overwrite in
place, else append).  JS truthiness tests on looked-up ids (`if (!labelId)`,
`labelMap[name] || null`) are modelled by `jsTruthy`, false for a missing key
and for the empty string.

Observable remote/local mutations are recorded in an event trace `List Ev` so
that ordering properties (batching, adds-before-removals, shallowest-first
ancestor creation) can be stated.
-/

inductive LabelType
  | user
  | system
deriving DecidableEq, Repr

structure RemoteLabel where
  id : String
  name : String
  ltype : LabelType
deriving DecidableEq, Repr

structure GmailState where
  labels : List RemoteLabel
  tags : List (String × List Nat)
  nextId : Nat
deriving DecidableEq, Repr

structure SheetRow where
  idCell : String
  nameCell : String
deriving DecidableEq, Repr

structure St where
  sheet : List SheetRow
  gmail : GmailState
deriving DecidableEq, Repr

inductive Ev
  | createRemote (name : String)
  | deleteRemote (name : String)
  | addTags (name : String) (batch : List Nat)
  | removeTags (name : String) (batch : List Nat)
  | appendRow (name : String)
  | deleteBlocked (name : String) (count : Nat)
deriving DecidableEq, Repr

/-- JS object assignment `m[k] = v`: overwrite the entry in place, else append. -/
def objInsert {α : Type} : List (String × α) → String → α → List (String × α)
  | [], k, v => [(k, v)]
  | p :: ps, k, v => if p.1 = k then (k, v) :: ps else p :: objInsert ps k v

/-- JS object read `m[k]` (`undefined` is `none`). -/
def objGet {α : Type} : List (String × α) → String → Option α
  | [], _ => none
  | p :: ps, k => if p.1 = k then some p.2 else objGet ps k

/-- JS truthiness of a looked-up string: `undefined` and `""` are falsy. -/
def jsTruthy : Option String → Bool
  | none => false
  | some s => if s = "" then false else true

/-- The loop of getLabelMap: `labelMap[label.name] = label.id` over the listing. -/
def labelsToMap (ls : List RemoteLabel) : List (String × String) :=
  ls.foldl (fun m l => objInsert m l.name l.id) []

/-- `Gmail.Users.Labels.list('me')`: `none` when the call fails or has no labels. -/
def listMe (ok : Bool) (g : GmailState) : Option (List RemoteLabel) :=
  if ok then some g.labels else none

/-- getLabelMap (labelling.js): name → id over the full listing, `{}` on failure. -/
def getLabelMap (ok : Bool) (g : GmailState) : List (String × String) :=
  match listMe ok g with
  | none => []
  | some ls => labelsToMap ls

/-- getLabelId (labelling.js): `labelMap[labelName] || null`. -/
def getLabelId (ok : Bool) (g : GmailState) (labelName : String) : Option String :=
  match objGet (getLabelMap ok g) labelName with
  | none => none
  | some v => if v = "" then none else some v

def gmailNames (g : GmailState) : List String := g.labels.map (fun l => l.name)

def GmailState.hasName (g : GmailState) (n : String) : Bool :=
  g.labels.any (fun l => l.name == n)

/-- GmailApp.createLabel: creating an existing name returns the existing label
(no duplicate); a new label gets a fresh opaque id and user type. -/
def GmailState.createLabel (g : GmailState) (n : String) : GmailState × List Ev :=
  if g.hasName n then (g, [])
  else ({ labels := g.labels ++ [⟨"L" ++ toString g.nextId, n, LabelType.user⟩],
          tags := g.tags, nextId := g.nextId + 1 },
        [Ev.createRemote n])

/-- GmailApp.getUserLabelByName: only user labels have handles; `null` otherwise. -/
def GmailState.getUserLabelByName (g : GmailState) (n : String) : Option RemoteLabel :=
  g.labels.find? (fun l => l.name == n && l.ltype == LabelType.user)

/-- GmailApp.search("label:" + n): the threads currently tagged n. -/
def GmailState.search (g : GmailState) (n : String) : List Nat :=
  match objGet g.tags n with
  | none => []
  | some ths => ths

/-- label.addToThreads(batch). -/
def GmailState.addToThreads (g : GmailState) (n : String) (batch : List Nat) :
    GmailState × List Ev :=
  let cur := g.search n
  ({ labels := g.labels,
     tags := objInsert g.tags n (cur ++ batch.filter (fun t => !(cur.contains t))),
     nextId := g.nextId },
   [Ev.addTags n batch])

/-- label.removeFromThreads(batch). -/
def GmailState.removeFromThreads (g : GmailState) (n : String) (batch : List Nat) :
    GmailState × List Ev :=
  let cur := g.search n
  ({ labels := g.labels,
     tags := objInsert g.tags n (cur.filter (fun t => !(batch.contains t))),
     nextId := g.nextId },
   [Ev.removeTags n batch])

/-- label.deleteLabel() on a handle obtained from getUserLabelByName: the user
label of that name disappears together with its tag assignments. -/
def GmailState.deleteLabel (g : GmailState) (n : String) : GmailState × List Ev :=
  ({ labels := g.labels.filter (fun l => !(l.name == n && l.ltype == LabelType.user)),
     tags := g.tags.filter (fun p => !(p.1 == n)),
     nextId := g.nextId },
   [Ev.deleteRemote n])

def updateRow : List SheetRow → Nat → (SheetRow → SheetRow) → List SheetRow
  | [], _, _ => []
  | r :: rs, 0, f => f r :: rs
  | r :: rs, Nat.succ i, f => r :: updateRow rs i f

/-- sheet.getRange(row, LABEL_ID_COLUMN).setValue(v). -/
def setIdCell (s : St) (row : Nat) (v : String) : St :=
  { s with sheet := updateRow s.sheet row (fun r => { r with idCell := v }) }

/-- sheet.getRange(row, NAME_COLUMN).setValue(v). -/
def setNameCell (s : St) (row : Nat) (v : String) : St :=
  { s with sheet := updateRow s.sheet row (fun r => { r with nameCell := v }) }

/-- sheet.getRange(row, LABEL_ID_COLUMN).clearContent(). -/
def clearIdCell (s : St) (row : Nat) : St := setIdCell s row ""

/-- The non-empty name cells of the sheet, in row order. -/
def sheetNamesNE (sheet : List SheetRow) : List String :=
  (sheet.map (fun r => r.nameCell)).filter (fun n => n ≠ "")

def sheetMapAux (i : Nat) (m : List (String × Nat)) :
    List SheetRow → List (String × Nat)
  | [] => m
  | r :: rs =>
    sheetMapAux (i + 1) (if r.nameCell = "" then m else objInsert m r.nameCell i) rs

/-- The `sheetLabelMap` loop: name → row over the non-empty name cells.  The
stored JS row numbers are ≥ HEADER_ROW + 1 = 2 and hence always truthy, so
truthiness tests on this map are modelled by `Option.isSome`. -/
def sheetLabelMapOf (sheet : List SheetRow) : List (String × Nat) :=
  sheetMapAux 0 [] sheet

/-- JS `name.split('/')`, over the character list so that the kernel can
evaluate it (String.splitOn is not kernel-reducible). -/
def splitSlash : List Char → List (List Char)
  | [] => [[]]
  | c :: cs =>
    if c = '/' then [] :: splitSlash cs
    else match splitSlash cs with
      | [] => [[c]]
      | p :: ps => (c :: p) :: ps

def strSplitSlash (s : String) : List String :=
  (splitSlash s.data).map (fun cs => String.mk cs)

/-- JS `name.includes('/')`. -/
def hasSlash (s : String) : Bool := s.data.contains '/'

/-- JS `name.startsWith(pre)`, over character lists. -/
def charsStartWith : List Char → List Char → Bool
  | [], _ => true
  | _ :: _, [] => false
  | c :: cs, d :: ds => c == d && charsStartWith cs ds

/-- One step of the parentPath accumulation:
`if (parentPath) parentPath += '/'; parentPath += parts[i]`. -/
def joinStep (cur part : String) : String :=
  (if cur = "" then cur else cur ++ "/") ++ part

def goParents (cur : String) : List String → List String
  | [] => []
  | p :: ps => joinStep cur p :: goParents (joinStep cur p) ps

/-- The successive `parentPath` values of the hierarchy loops: the proper
ancestor paths of a '/'-separated name, shallowest first. -/
def ancestorPaths (name : String) : List String :=
  goParents "" ((strSplitSlash name).dropLast)

def chunksAux {α : Type} (fuel : Nat) (k : Nat) (l : List α) : List (List α) :=
  match fuel, l with
  | 0, _ => []
  | _ + 1, [] => []
  | f + 1, x :: xs => (x :: xs).take k :: chunksAux f k ((x :: xs).drop k)

/-- The batching loop `for (i = 0; i < threads.length; i += BATCH_SIZE)
{ batch = threads.slice(i, i + BATCH_SIZE); ... }`. -/
def chunksOf {α : Type} (k : Nat) (l : List α) : List (List α) :=
  chunksAux l.length k l

/-- One level of addParentLabelsToSheet's hierarchy loop: create the parent in
Gmail if getLabelId is falsy, then append it to the sheet unless it is in the
(snapshot-plus-appended) sheetLabelMap; the appended row gets the freshly
fetched id when truthy, else an empty id cell. -/
def addParentStep (ok : Bool)
    (acc : St × List Ev × List (String × Nat)) (parentPath : String) :
    St × List Ev × List (String × Nat) :=
  let s := acc.1
  let evs := acc.2.1
  let m := acc.2.2
  let sg :=
    match getLabelId ok s.gmail parentPath with
    | some _ => (s, evs)
    | none =>
      let ge := s.gmail.createLabel parentPath
      ({ s with gmail := ge.1 }, evs ++ ge.2)
  let s1 := sg.1
  let evs1 := sg.2
  match objGet m parentPath with
  | some _ => (s1, evs1, m)
  | none =>
    let newRow := s1.sheet.length
    let idOpt := getLabelId ok s1.gmail parentPath
    ({ s1 with sheet := s1.sheet ++ [⟨idOpt.getD "", parentPath⟩] },
     evs1 ++ [Ev.appendRow parentPath],
     objInsert m parentPath newRow)

/-- addParentLabelsToSheet (labelling.js). -/
def addParentLabelsToSheet (ok : Bool) (s : St) (labelName : String) : St × List Ev :=
  if hasSlash labelName then
    let res := (ancestorPaths labelName).foldl (addParentStep ok)
      (s, [], sheetLabelMapOf s.sheet)
    (res.1, res.2.1)
  else (s, [])

/-- createLabel (labelling.js): adopt the id if the name already exists, else
ensure ancestors, create remotely, and write the fresh id into the row. -/
def createLabel (ok : Bool) (s : St) (row : Nat) (labelName : String) : St × List Ev :=
  match getLabelId ok s.gmail labelName with
  | some existingId => (setIdCell s row existingId, [])
  | none =>
    let pe := addParentLabelsToSheet ok s labelName
    let ge := pe.1.gmail.createLabel labelName
    let s2 : St := { pe.1 with gmail := ge.1 }
    let evs := pe.2 ++ ge.2
    match getLabelId ok s2.gmail labelName with
    | some newLabelId => (setIdCell s2 row newLabelId, evs)
    | none => (s2, evs)

def addBatchStep (nm : String) (acc : GmailState × List Ev) (b : List Nat) :
    GmailState × List Ev :=
  if b.length > 0 then
    let r := acc.1.addToThreads nm b
    (r.1, acc.2 ++ r.2)
  else acc

def removeBatchStep (nm : String) (acc : GmailState × List Ev) (b : List Nat) :
    GmailState × List Ev :=
  if b.length > 0 then
    let r := acc.1.removeFromThreads nm b
    (r.1, acc.2 ++ r.2)
  else acc

/-- updateLabel (labelling.js). -/
def updateLabel (ok : Bool) (s : St) (row : Nat)
    (oldLabelName newLabelName : String) : St × List Ev :=
  match getLabelId ok s.gmail oldLabelName with
  | none => createLabel ok s row newLabelName
  | some _ =>
    let pe := addParentLabelsToSheet ok s newLabelName
    let s1 := pe.1
    let threads := s1.gmail.search oldLabelName
    let ge := s1.gmail.createLabel newLabelName
    let s2 : St := { s1 with gmail := ge.1 }
    let evs := pe.2 ++ ge.2
    match getLabelId ok s2.gmail newLabelName with
    | none => (s2, evs)
    | some newLabelId =>
      match s2.gmail.getUserLabelByName oldLabelName,
            s2.gmail.getUserLabelByName newLabelName with
      | some _, some _ =>
        let batches := chunksOf 100 threads
        let aAcc := batches.foldl (addBatchStep newLabelName) (s2.gmail, evs)
        let rAcc := batches.foldl (removeBatchStep oldLabelName) aAcc
        let de := rAcc.1.deleteLabel oldLabelName
        (setIdCell { s2 with gmail := de.1 } row newLabelId, rAcc.2 ++ de.2)
      | _, _ => (s2, evs)

/-- deleteLabel (labelling.js): refuse deletion while threads still carry the
label, restoring the name cell and reporting the conflict with the count. -/
def deleteLabel (ok : Bool) (s : St) (row : Nat) (labelName : String) : St × List Ev :=
  match getLabelId ok s.gmail labelName with
  | none => (clearIdCell s row, [])
  | some _ =>
    match s.gmail.getUserLabelByName labelName with
    | none => (clearIdCell s row, [])
    | some _ =>
      let threads := s.gmail.search labelName
      if threads.length > 0 then
        (setNameCell s row labelName, [Ev.deleteBlocked labelName threads.length])
      else
        let de := s.gmail.deleteLabel labelName
        (clearIdCell { s with gmail := de.1 } row, de.2)

/-- handleLabelChange (labelling.js): classify the edit by exact string
comparison with "" and dispatch create / delete / update. -/
def handleLabelChange (ok : Bool) (s : St) (row : Nat)
    (oldLabelName newLabelName : String) : St × List Ev :=
  if oldLabelName = "" ∧ newLabelName ≠ "" then
    createLabel ok s row newLabelName
  else if oldLabelName ≠ "" ∧ newLabelName = "" then
    deleteLabel ok s row oldLabelName
  else if oldLabelName ≠ "" ∧ newLabelName ≠ "" ∧ oldLabelName ≠ newLabelName then
    updateLabel ok s row oldLabelName newLabelName
  else (s, [])

/-- The system-label skip test of sync step 3: type system, CATEGORY_ prefix,
or a reserved name. -/
def nameSkip (n : String) : Bool :=
  charsStartWith "CATEGORY_".data n.data ||
    ["INBOX", "SENT", "DRAFT", "TRASH", "SPAM"].contains n

def skipLabel (l : RemoteLabel) : Bool :=
  l.ltype == LabelType.system || nameSkip l.name

/-- One parent-creation step of sync step 2: the existence check uses the
stale labelMap snapshot (`labelMap[parentPath]`), not a fresh fetch. -/
def syncParentStep (labelMap : List (String × String))
    (a : St × List Ev) (parentPath : String) : St × List Ev :=
  if jsTruthy (objGet labelMap parentPath) then a
  else
    let ge := a.1.gmail.createLabel parentPath
    ({ a.1 with gmail := ge.1 }, a.2 ++ ge.2)

/-- Sync step 2 for one sheetLabelMap entry (name, row): update the id cell if
the label exists per the snapshot, else create missing ancestors (per the
snapshot), create the label, and write the freshly fetched id if truthy. -/
def syncProcessName (ok : Bool) (labelMap : List (String × String))
    (acc : St × List Ev) (entry : String × Nat) : St × List Ev :=
  let s := acc.1
  let evs := acc.2
  let labelId := objGet labelMap entry.1
  if jsTruthy labelId then
    (setIdCell s entry.2 (labelId.getD ""), evs)
  else
    let se :=
      if hasSlash entry.1 then
        (ancestorPaths entry.1).foldl (syncParentStep labelMap) (s, evs)
      else (s, evs)
    let ge := se.1.gmail.createLabel entry.1
    let s2 : St := { se.1 with gmail := ge.1 }
    let evs2 := se.2 ++ ge.2
    match getLabelId ok s2.gmail entry.1 with
    | some newLabelId => (setIdCell s2 entry.2 newLabelId, evs2)
    | none => (s2, evs2)

/-- Sync step 3 for one listed label: skip system labels and labels whose name
is in the (pre-state) sheetLabelMap, else append a row with its id and name. -/
def syncStep3 (sheetMap : List (String × Nat)) (acc : St × List Ev)
    (l : RemoteLabel) : St × List Ev :=
  if skipLabel l then acc
  else if (objGet sheetMap l.name).isSome then acc
  else ({ acc.1 with sheet := acc.1.sheet ++ [⟨l.id, l.name⟩] },
        acc.2 ++ [Ev.appendRow l.name])

/-- syncAllLabels (sync.js): step 2 over the sheetLabelMap entries against the
labelMap snapshot, then step 3 over a fresh listing. -/
def syncAllLabels (ok : Bool) (s : St) : St × List Ev :=
  let labelMap := getLabelMap ok s.gmail
  let sheetMap := sheetLabelMapOf s.sheet
  let mid := sheetMap.foldl (syncProcessName ok labelMap) (s, [])
  match listMe ok mid.1.gmail with
  | none => mid
  | some ls => ls.foldl (syncStep3 sheetMap) mid

/-- The remote label names actually created during a pass. -/
def createdInGmailOf (evs : List Ev) : List String :=
  evs.filterMap (fun e => match e with | Ev.createRemote n => some n | _ => none)

/-- The local row names appended during a pass. -/
def addedToSheetOf (evs : List Ev) : List String :=
  evs.filterMap (fun e => match e with | Ev.appendRow n => some n | _ => none)

structure SyncResult where
  createdInGmail : List String
  addedToSheet : List String
deriving DecidableEq, Repr

/-- The value the JS function syncAllLabels hands back to its caller: the
function body (sync.js lines 31-122) ends with a toast and has no return
statement, so the call expression evaluates to `undefined`, modelled as
`none` — there is no SyncResult payload, whatever the stores contain. -/
def syncAllLabelsReturn (ok : Bool) (s : St) : Option SyncResult := none

/-- Sanity of a remote store: ids are opaque non-empty strings assigned by the
remote side, and label names are non-empty. -/
def gmailWfB (g : GmailState) : Bool :=
  g.labels.all (fun l => !(l.id = "") && !(l.name = ""))

/-- Sanity of the sheet: no name cell yields an empty ancestor path (rules out
names with empty leading segments such as "/B"). -/
def sheetWfB (sheet : List SheetRow) : Bool :=
  sheet.all (fun r => (ancestorPaths r.nameCell).all (fun p => !(p = "")))

/-- The proper ancestor paths of the nested local names that are absent
remotely: exactly the extra names a sync pass materializes. -/
def syncAncestors (s : St) : List String :=
  (sheetNamesNE s.sheet).foldr
    (fun n acc =>
      (if !(s.gmail.hasName n) && hasSlash n then ancestorPaths n else []) ++ acc)
    []

/-- A name is present in the local store. -/
def localHas (sheet : List SheetRow) (n : String) : Bool :=
  sheet.any (fun r => r.nameCell == n)

/-! ### Generic lemmas about the JS-object model -/

theorem objGet_objInsert {α : Type} (m : List (String × α)) (k k' : String) (v : α) :
    objGet (objInsert m k v) k' = if k' = k then some v else objGet m k' := by
  induction m with
  | nil =>
    by_cases h : k' = k
    · have hkk : k = k' := h.symm
      simp only [objInsert, objGet, if_pos h, if_pos hkk]
    · have hkk : ¬ k = k' := fun hc => h hc.symm
      simp only [objInsert, objGet, if_neg h, if_neg hkk]
  | cons p ps ih =>
    simp only [objInsert]
    by_cases hp : p.1 = k
    · rw [if_pos hp]
      by_cases hk : k' = k
      · have hkk : k = k' := hk.symm
        simp only [objGet, if_pos hk, if_pos hkk]
      · have hkk : ¬ k = k' := fun hc => hk hc.symm
        have hpk : ¬ p.1 = k' := fun hc => hk (by rw [← hc, hp])
        simp only [objGet, if_neg hkk, if_neg hpk, if_neg hk]
    · rw [if_neg hp]
      by_cases hpk : p.1 = k'
      · have hk : ¬ k' = k := fun hc => hp (hpk.trans hc)
        simp only [objGet, if_pos hpk, if_neg hk]
      · simp only [objGet, if_neg hpk, ih]

theorem mem_keys_objInsert {α : Type} (m : List (String × α)) (k k' : String) (v : α) :
    k' ∈ (objInsert m k v).map Prod.fst ↔ k' ∈ m.map Prod.fst ∨ k' = k := by
  induction m with
  | nil => simp [objInsert]
  | cons p ps ih =>
    by_cases hp : p.1 = k
    · simp only [objInsert, if_pos hp]
      constructor
      · rintro h
        rcases List.mem_map.1 h with ⟨q, hq, rfl⟩
        rcases List.mem_cons.1 hq with rfl | hq'
        · exact Or.inr rfl
        · exact Or.inl (List.mem_map.2 ⟨q, List.mem_cons_of_mem _ hq', rfl⟩)
      · rintro (h | rfl)
        · rcases List.mem_map.1 h with ⟨q, hq, rfl⟩
          rcases List.mem_cons.1 hq with rfl | hq'
          · rw [hp]; exact List.mem_map.2 ⟨(k, v), List.mem_cons_self _ _, rfl⟩
          · exact List.mem_map.2 ⟨q, List.mem_cons_of_mem _ hq', rfl⟩
        · exact List.mem_map.2 ⟨(k', v), List.mem_cons_self _ _, rfl⟩
    · simp only [objInsert, if_neg hp, List.map_cons, List.mem_cons, ih]
      tauto

theorem mem_of_mem_objInsert {α : Type} {m : List (String × α)} {k : String} {v : α}
    {p : String × α} (h : p ∈ objInsert m k v) : p ∈ m ∨ p.1 = k := by
  induction m with
  | nil =>
    have hp : p = (k, v) := by simpa [objInsert] using h
    exact Or.inr (by rw [hp])
  | cons q qs ih =>
    by_cases hq : q.1 = k
    · simp only [objInsert, if_pos hq] at h
      rcases List.mem_cons.1 h with rfl | h'
      · exact Or.inr rfl
      · exact Or.inl (List.mem_cons_of_mem _ h')
    · simp only [objInsert, if_neg hq] at h
      rcases List.mem_cons.1 h with rfl | h'
      · exact Or.inl (List.mem_cons_self _ _)
      · rcases ih h' with h'' | h''
        · exact Or.inl (List.mem_cons_of_mem _ h'')
        · exact Or.inr h''

theorem foldIns_origin (ls : List RemoteLabel) :
    ∀ (m : List (String × String)) (n v : String),
      objGet (ls.foldl (fun m l => objInsert m l.name l.id) m) n = some v →
      (∃ l ∈ ls, l.name = n ∧ l.id = v) ∨ objGet m n = some v := by
  induction ls with
  | nil => intro m n v h; exact Or.inr h
  | cons l ls ih =>
    intro m n v h
    rcases ih _ _ _ h with h1 | h2
    · rcases h1 with ⟨l', hl', h1, h2⟩
      exact Or.inl ⟨l', List.mem_cons_of_mem _ hl', h1, h2⟩
    · rw [objGet_objInsert] at h2
      by_cases hn : n = l.name
      · simp only [if_pos hn] at h2
        exact Or.inl ⟨l, List.mem_cons_self _ _, hn.symm, (Option.some_inj.1 h2)⟩
      · simp only [if_neg hn] at h2
        exact Or.inr h2

theorem foldIns_isSome (ls : List RemoteLabel) :
    ∀ (m : List (String × String)) (n : String),
      (n ∈ ls.map (fun l => l.name) ∨ (objGet m n).isSome) →
      (objGet (ls.foldl (fun m l => objInsert m l.name l.id) m) n).isSome := by
  induction ls with
  | nil => intro m n h; simpa using h
  | cons l ls ih =>
    intro m n h
    apply ih
    rcases h with h | h
    · rcases List.mem_map.1 h with ⟨l', hl', rfl⟩
      rcases List.mem_cons.1 hl' with rfl | hl''
      · right; rw [objGet_objInsert, if_pos rfl]; rfl
      · left; exact List.mem_map.2 ⟨l', hl'', rfl⟩
    · right
      rw [objGet_objInsert]
      by_cases hn : n = l.name
      · rw [if_pos hn]; rfl
      · rw [if_neg hn]; exact h

theorem foldIns_stable (ext : List RemoteLabel) :
    ∀ (m : List (String × String)) (n : String),
      n ∉ ext.map (fun l => l.name) →
      objGet (ext.foldl (fun m l => objInsert m l.name l.id) m) n = objGet m n := by
  induction ext with
  | nil => intro m n _; rfl
  | cons l ls ih =>
    intro m n h
    have h1 : n ∉ ls.map (fun l => l.name) := fun hc => h (List.mem_cons_of_mem _ hc)
    have h2 : n ≠ l.name := fun hc => h (by simp [hc])
    rw [List.foldl_cons, ih _ _ h1, objGet_objInsert, if_neg h2]

/-! ### getLabelMap / getLabelId characterizations -/

theorem hasName_iff {g : GmailState} {n : String} :
    g.hasName n = true ↔ n ∈ gmailNames g := by
  constructor
  · intro h
    rcases List.any_eq_true.1 h with ⟨l, hl, he⟩
    exact List.mem_map.2 ⟨l, hl, beq_iff_eq.1 he⟩
  · intro h
    rcases List.mem_map.1 h with ⟨l, hl, he⟩
    exact List.any_eq_true.2 ⟨l, hl, beq_iff_eq.2 he⟩

theorem hasName_false_iff {g : GmailState} {n : String} :
    g.hasName n = false ↔ n ∉ gmailNames g := by
  rw [← hasName_iff]
  cases h : g.hasName n <;> simp [h]

theorem getLabelMap_true (g : GmailState) : getLabelMap true g = labelsToMap g.labels := rfl

theorem getLabelId_objGet_some {ok : Bool} {g : GmailState} {n v0 : String}
    (hq : objGet (getLabelMap ok g) n = some v0) :
    getLabelId ok g n = if v0 = "" then none else some v0 := by
  unfold getLabelId
  rw [hq]

theorem getLabelId_objGet_none {ok : Bool} {g : GmailState} {n : String}
    (hq : objGet (getLabelMap ok g) n = none) :
    getLabelId ok g n = none := by
  unfold getLabelId
  rw [hq]

theorem getLabelId_some_imp {g : GmailState} {n v : String}
    (h : getLabelId true g n = some v) :
    ∃ l ∈ g.labels, l.name = n ∧ l.id = v ∧ v ≠ "" := by
  rcases hq : objGet (getLabelMap true g) n with _ | v0
  · rw [getLabelId_objGet_none hq] at h
    exact absurd h (by simp)
  · rw [getLabelId_objGet_some hq] at h
    by_cases hv : v0 = ""
    · rw [if_pos hv] at h; exact absurd h (by simp)
    · rw [if_neg hv] at h
      have hv0 : v0 = v := Option.some_inj.1 h
      rw [getLabelMap_true] at hq
      rcases foldIns_origin g.labels [] n v0 hq with ⟨l, hl, h1, h2⟩ | h2
      · exact ⟨l, hl, h1, by rw [h2, hv0], by rw [← hv0]; exact hv⟩
      · exact absurd h2 (by simp [objGet])

theorem getLabelId_some_hasName {g : GmailState} {n v : String}
    (h : getLabelId true g n = some v) : g.hasName n = true := by
  rcases getLabelId_some_imp h with ⟨l, hl, h1, _, _⟩
  exact hasName_iff.2 (List.mem_map.2 ⟨l, hl, h1⟩)

theorem gmailWfB_iff {g : GmailState} :
    gmailWfB g = true ↔ ∀ l ∈ g.labels, l.id ≠ "" ∧ l.name ≠ "" := by
  simp [gmailWfB, List.all_eq_true]

theorem getLabelId_of_hasName {g : GmailState} {n : String}
    (hwf : gmailWfB g = true) (h : g.hasName n = true) :
    (getLabelId true g n).isSome := by
  have hmem : n ∈ g.labels.map (fun l => l.name) := by
    rcases hasName_iff.1 h with hm; exact hm
  have h1 : (objGet (getLabelMap true g) n).isSome := by
    rw [getLabelMap_true]
    exact foldIns_isSome g.labels [] n (Or.inl hmem)
  rcases hq : objGet (getLabelMap true g) n with _ | v
  · rw [hq] at h1; exact absurd h1 (by simp)
  · rcases foldIns_origin g.labels [] n v hq
      with ⟨l, hl, h2, h3⟩ | h3
    · have hv : v ≠ "" := by
        rw [← h3]; exact ((gmailWfB_iff.1 hwf) l hl).1
      rw [getLabelId_objGet_some hq, if_neg hv]
      rfl
    · exact absurd h3 (by simp [objGet])

theorem getLabelId_none_iff {g : GmailState} {n : String} (hwf : gmailWfB g = true) :
    getLabelId true g n = none ↔ g.hasName n = false := by
  constructor
  · intro h
    cases hh : g.hasName n
    · rfl
    · rcases Option.isSome_iff_exists.1 (getLabelId_of_hasName hwf hh) with ⟨v, hv⟩
      rw [h] at hv; exact absurd hv (by simp)
  · intro h
    rcases hq : getLabelId true g n with _ | v
    · rfl
    · rw [getLabelId_some_hasName hq] at h; exact absurd h (by simp)

theorem jsTruthy_getLabelMap {g : GmailState} {n : String} (hwf : gmailWfB g = true) :
    jsTruthy (objGet (getLabelMap true g) n) = g.hasName n := by
  rcases hq : objGet (getLabelMap true g) n with _ | v
  · cases hh : g.hasName n
    · rfl
    · rcases Option.isSome_iff_exists.1 (getLabelId_of_hasName hwf hh) with ⟨w, hw⟩
      rw [getLabelId_objGet_none hq] at hw
      exact absurd hw (by simp)
  · rcases foldIns_origin g.labels [] n v hq
      with ⟨l, hl, h1, h2⟩ | h2
    · have hv : v ≠ "" := by rw [← h2]; exact ((gmailWfB_iff.1 hwf) l hl).1
      have hh : g.hasName n = true := hasName_iff.2 (List.mem_map.2 ⟨l, hl, h1⟩)
      simp [jsTruthy, hv, hh]
    · exact absurd h2 (by simp [objGet])

theorem getLabelId_unique {g : GmailState} {n : String} {l : RemoteLabel}
    (hl : l ∈ g.labels) (hn : l.name = n) (hid : l.id ≠ "")
    (huni : ∀ l' ∈ g.labels, l'.name = n → l' = l) :
    getLabelId true g n = some l.id := by
  have h1 : (objGet (getLabelMap true g) n).isSome := by
    rw [getLabelMap_true]
    exact foldIns_isSome g.labels [] n (Or.inl (List.mem_map.2 ⟨l, hl, hn⟩))
  rcases hq : objGet (getLabelMap true g) n with _ | v
  · rw [hq] at h1; exact absurd h1 (by simp)
  · rcases foldIns_origin g.labels [] n v hq
      with ⟨l', hl', h2, h3⟩ | h3
    · have : l' = l := huni l' hl' h2
      subst this
      rw [getLabelId_objGet_some hq, if_neg (by rw [← h3]; exact hid), h3]
    · exact absurd h3 (by simp [objGet])

/-! ### Batching lemmas -/

theorem chunksAux_nil {α : Type} (f k : Nat) : chunksAux f k ([] : List α) = [] := by
  cases f <;> rfl

theorem chunksAux_congr {α : Type} :
    ∀ (f1 f2 k : Nat) (l : List α), l.length ≤ f1 → l.length ≤ f2 → 1 ≤ k →
      chunksAux f1 k l = chunksAux f2 k l := by
  intro f1
  induction f1 with
  | zero =>
    intro f2 k l h1 _ _
    have : l = [] := List.length_eq_zero.1 (Nat.le_zero.1 h1)
    subst this
    rw [chunksAux_nil, chunksAux_nil]
  | succ f ih =>
    intro f2 k l h1 h2 hk
    cases l with
    | nil => rw [chunksAux_nil, chunksAux_nil]
    | cons x xs =>
      cases f2 with
      | zero => exact absurd h2 (by simp)
      | succ f2' =>
        show (x :: xs).take k :: chunksAux f k ((x :: xs).drop k) =
          (x :: xs).take k :: chunksAux f2' k ((x :: xs).drop k)
        have hd : ((x :: xs).drop k).length ≤ xs.length := by
          rw [List.length_drop]
          simp only [List.length_cons]
          omega
        have hf : ((x :: xs).drop k).length ≤ f := le_trans hd (Nat.lt_succ_iff.1 (Nat.lt_of_lt_of_le (Nat.lt_succ_of_le (le_refl _)) h1))
        have hf2 : ((x :: xs).drop k).length ≤ f2' := le_trans hd (Nat.lt_succ_iff.1 (Nat.lt_of_lt_of_le (Nat.lt_succ_of_le (le_refl _)) h2))
        rw [ih f2' k _ hf hf2 hk]

theorem chunksOf_cons_eq {α : Type} (k : Nat) (l : List α) (hk : 1 ≤ k) (hl : l ≠ []) :
    chunksOf k l = l.take k :: chunksOf k (l.drop k) := by
  cases l with
  | nil => exact absurd rfl hl
  | cons x xs =>
    show chunksAux (xs.length + 1) k (x :: xs) = _
    show (x :: xs).take k :: chunksAux xs.length k ((x :: xs).drop k) = _
    unfold chunksOf
    congr 1
    apply chunksAux_congr
    · rw [List.length_drop]; simp only [List.length_cons]; omega
    · exact le_refl _
    · exact hk

theorem chunksOf_join_aux {α : Type} (k : Nat) (hk : 1 ≤ k) :
    ∀ (n : Nat) (l : List α), l.length ≤ n → (chunksOf k l).flatten = l := by
  intro n
  induction n with
  | zero =>
    intro l h
    have : l = [] := List.length_eq_zero.1 (Nat.le_zero.1 h)
    subst this
    rfl
  | succ n ih =>
    intro l h
    cases hl : l with
    | nil => rfl
    | cons x xs =>
      subst hl
      rw [chunksOf_cons_eq k _ hk (by simp), List.flatten_cons,
        ih _ (by rw [List.length_drop]; simp only [List.length_cons] at h ⊢; omega),
        List.take_append_drop]

theorem chunksOf_join {α : Type} (k : Nat) (hk : 1 ≤ k) (l : List α) :
    (chunksOf k l).flatten = l :=
  chunksOf_join_aux k hk l.length l (le_refl _)

theorem mem_chunksOf_aux {α : Type} (k : Nat) (hk : 1 ≤ k) :
    ∀ (n : Nat) (l : List α) (b : List α), l.length ≤ n → b ∈ chunksOf k l →
      1 ≤ b.length ∧ b.length ≤ k := by
  intro n
  induction n with
  | zero =>
    intro l b h hb
    have : l = [] := List.length_eq_zero.1 (Nat.le_zero.1 h)
    subst this
    exact absurd hb (by simp [chunksOf, chunksAux_nil])
  | succ n ih =>
    intro l b h hb
    cases hl : l with
    | nil => subst hl; exact absurd hb (by simp [chunksOf, chunksAux_nil])
    | cons x xs =>
      subst hl
      rw [chunksOf_cons_eq k _ hk (by simp)] at hb
      rcases List.mem_cons.1 hb with rfl | hb'
      · constructor
        · rw [List.length_take]
          simp only [List.length_cons]
          omega
        · rw [List.length_take]
          omega
      · exact ih _ _ (by rw [List.length_drop]; simp only [List.length_cons] at h ⊢; omega) hb'

theorem mem_chunksOf {α : Type} (k : Nat) (hk : 1 ≤ k) (l : List α) (b : List α)
    (hb : b ∈ chunksOf k l) : 1 ≤ b.length ∧ b.length ≤ k :=
  mem_chunksOf_aux k hk l.length l b (le_refl _) hb

/-! ### GmailState operation lemmas -/

theorem lprefix_ne_empty (s : String) : "L" ++ s ≠ "" := by
  intro h
  have h1 : ("L" ++ s).length = ("" : String).length := by rw [h]
  rw [String.length_append] at h1
  have h2 : ("L" : String).length = 1 := rfl
  have h3 : ("" : String).length = 0 := rfl
  omega

theorem gcreate_of_hasName {g : GmailState} {n : String} (h : g.hasName n = true) :
    g.createLabel n = (g, []) := by
  unfold GmailState.createLabel
  rw [h]
  rfl

theorem gcreate_of_not_hasName {g : GmailState} {n : String} (h : g.hasName n = false) :
    g.createLabel n =
      ({ labels := g.labels ++ [⟨"L" ++ toString g.nextId, n, LabelType.user⟩],
         tags := g.tags, nextId := g.nextId + 1 }, [Ev.createRemote n]) := by
  unfold GmailState.createLabel
  rw [h]
  rfl

theorem gcreate_labels_ext (g : GmailState) (n : String) :
    ∃ ext, (g.createLabel n).1.labels = g.labels ++ ext ∧
      ∀ l ∈ ext, l.ltype = LabelType.user ∧ l.name = n ∧ l.id ≠ "" := by
  cases h : g.hasName n
  · rw [gcreate_of_not_hasName h]
    refine ⟨[⟨"L" ++ toString g.nextId, n, LabelType.user⟩], rfl, ?_⟩
    intro l hl
    have : l = ⟨"L" ++ toString g.nextId, n, LabelType.user⟩ := by simpa using hl
    subst this
    exact ⟨rfl, rfl, lprefix_ne_empty _⟩
  · rw [gcreate_of_hasName h]
    exact ⟨[], by simp, by simp⟩

theorem gcreate_tags (g : GmailState) (n : String) :
    (g.createLabel n).1.tags = g.tags := by
  cases h : g.hasName n
  · rw [gcreate_of_not_hasName h]
  · rw [gcreate_of_hasName h]

theorem gcreate_search (g : GmailState) (n x : String) :
    (g.createLabel n).1.search x = g.search x := by
  unfold GmailState.search
  rw [gcreate_tags]

theorem gcreate_hasName_iff (g : GmailState) (n x : String) :
    (g.createLabel n).1.hasName x = true ↔ g.hasName x = true ∨ x = n := by
  cases h : g.hasName n
  · rw [gcreate_of_not_hasName h]
    constructor
    · intro hx
      rcases List.any_eq_true.1 hx with ⟨l, hl, he⟩
      rcases List.mem_append.1 hl with hl' | hl'
      · exact Or.inl (List.any_eq_true.2 ⟨l, hl', he⟩)
      · have : l = ⟨"L" ++ toString g.nextId, n, LabelType.user⟩ := by simpa using hl'
        subst this
        exact Or.inr (beq_iff_eq.1 he).symm
    · intro hx
      rcases hx with hx | rfl
      · rcases List.any_eq_true.1 hx with ⟨l, hl, he⟩
        exact List.any_eq_true.2 ⟨l, List.mem_append.2 (Or.inl hl), he⟩
      · exact List.any_eq_true.2 ⟨⟨"L" ++ toString g.nextId, x, LabelType.user⟩,
          List.mem_append.2 (Or.inr (by simp)), by simp⟩
  · rw [gcreate_of_hasName h]
    constructor
    · exact Or.inl
    · intro hx
      rcases hx with hx | rfl
      · exact hx
      · exact h

theorem gcreate_hasName_self (g : GmailState) (n : String) :
    (g.createLabel n).1.hasName n = true :=
  (gcreate_hasName_iff g n n).2 (Or.inr rfl)

theorem gcreate_hasName_mono {g : GmailState} {x : String} (n : String)
    (h : g.hasName x = true) : (g.createLabel n).1.hasName x = true :=
  (gcreate_hasName_iff g n x).2 (Or.inl h)

theorem gcreate_events (g : GmailState) (n : String) :
    (g.createLabel n).2 = if g.hasName n then [] else [Ev.createRemote n] := by
  cases h : g.hasName n
  · rw [gcreate_of_not_hasName h]; simp
  · rw [gcreate_of_hasName h]; simp

theorem gcreate_userLabel_some {g : GmailState} {m : String} {l : RemoteLabel}
    (n : String) (h : g.getUserLabelByName m = some l) :
    (g.createLabel n).1.getUserLabelByName m = some l := by
  rcases gcreate_labels_ext g n with ⟨ext, hext, _⟩
  unfold GmailState.getUserLabelByName at h ⊢
  rw [hext, List.find?_append, h]
  rfl

theorem gcreate_userLabel_none {g : GmailState} {m : String}
    (n : String) (hmn : m ≠ n) (h : g.getUserLabelByName m = none) :
    (g.createLabel n).1.getUserLabelByName m = none := by
  rcases gcreate_labels_ext g n with ⟨ext, hext, hprop⟩
  unfold GmailState.getUserLabelByName at h ⊢
  rw [hext, List.find?_append, h]
  rw [Option.none_or]
  rw [List.find?_eq_none]
  intro l hl
  have := (hprop l hl).2.1
  simp only [Bool.and_eq_true, beq_iff_eq]
  intro hc
  exact hmn (by rw [← hc.1, this])

theorem gcreate_wf {g : GmailState} {n : String} (hwf : gmailWfB g = true)
    (hn : n ≠ "") : gmailWfB (g.createLabel n).1 = true := by
  rcases gcreate_labels_ext g n with ⟨ext, hext, hprop⟩
  rw [gmailWfB_iff] at hwf ⊢
  rw [hext]
  intro l hl
  rcases List.mem_append.1 hl with hl' | hl'
  · exact hwf l hl'
  · exact ⟨(hprop l hl').2.2, by rw [(hprop l hl').2.1]; exact hn⟩


theorem gdelete_events (g : GmailState) (n : String) :
    (g.deleteLabel n).2 = [Ev.deleteRemote n] := rfl

theorem gdelete_hasName_other {g : GmailState} {n x : String} (hx : x ≠ n) :
    (g.deleteLabel n).1.hasName x = g.hasName x := by
  have hiff : (g.deleteLabel n).1.hasName x = true ↔ g.hasName x = true := by
    constructor
    · intro h
      rcases List.any_eq_true.1 h with ⟨l, hl, he⟩
      exact List.any_eq_true.2 ⟨l, (List.mem_filter.1 hl).1, he⟩
    · intro h
      rcases List.any_eq_true.1 h with ⟨l, hl, he⟩
      apply List.any_eq_true.2
      refine ⟨l, List.mem_filter.2 ⟨hl, ?_⟩, he⟩
      have hn : l.name = x := beq_iff_eq.1 he
      have hbn : (l.name == n) = false := by
        cases hbe : (l.name == n)
        · rfl
        · exact absurd (beq_iff_eq.1 hbe) (by rw [hn]; exact hx)
      simp [hbn]
  cases h1 : g.hasName x
  · cases h2 : (g.deleteLabel n).1.hasName x
    · rfl
    · rw [h1] at hiff
      exact absurd (hiff.1 h2) (by simp)
  · exact hiff.2 h1

theorem gdelete_hasName_self {g : GmailState} {n : String}
    (h : ∀ l ∈ g.labels, l.name = n → l.ltype = LabelType.user) :
    (g.deleteLabel n).1.hasName n = false := by
  unfold GmailState.hasName GmailState.deleteLabel
  simp only [Bool.eq_false_iff]
  intro hc
  rcases List.any_eq_true.1 hc with ⟨l, hl, he⟩
  rcases List.mem_filter.1 hl with ⟨hl', hcond⟩
  have hname : l.name = n := beq_iff_eq.1 he
  have hu : l.ltype = LabelType.user := h l hl' hname
  simp [hname, hu] at hcond

theorem addToThreads_labels (g : GmailState) (n : String) (b : List Nat) :
    (g.addToThreads n b).1.labels = g.labels := rfl

theorem removeFromThreads_labels (g : GmailState) (n : String) (b : List Nat) :
    (g.removeFromThreads n b).1.labels = g.labels := rfl

theorem addBatch_fold (nm : String) :
    ∀ (bs : List (List Nat)) (g : GmailState) (evs : List Ev),
      (∀ b ∈ bs, b ≠ []) →
      (bs.foldl (addBatchStep nm) (g, evs)).2 = evs ++ bs.map (fun b => Ev.addTags nm b) ∧
      (bs.foldl (addBatchStep nm) (g, evs)).1.labels = g.labels := by
  intro bs
  induction bs with
  | nil => intro g evs _; simp
  | cons b bs ih =>
    intro g evs hne
    have hb : b ≠ [] := hne b (List.mem_cons_self _ _)
    have hlen : b.length > 0 := List.length_pos.2 hb
    have hstep : addBatchStep nm (g, evs) b =
        ((g.addToThreads nm b).1, evs ++ [Ev.addTags nm b]) := by
      unfold addBatchStep
      rw [if_pos hlen]
      rfl
    rw [List.foldl_cons, hstep]
    rcases ih (g.addToThreads nm b).1 (evs ++ [Ev.addTags nm b])
      (fun x hx => hne x (List.mem_cons_of_mem _ hx)) with ⟨h1, h2⟩
    refine ⟨?_, ?_⟩
    · rw [h1, List.append_assoc]
      simp
    · rw [h2, addToThreads_labels]

theorem removeBatch_fold (nm : String) :
    ∀ (bs : List (List Nat)) (g : GmailState) (evs : List Ev),
      (∀ b ∈ bs, b ≠ []) →
      (bs.foldl (removeBatchStep nm) (g, evs)).2 = evs ++ bs.map (fun b => Ev.removeTags nm b) ∧
      (bs.foldl (removeBatchStep nm) (g, evs)).1.labels = g.labels := by
  intro bs
  induction bs with
  | nil => intro g evs _; simp
  | cons b bs ih =>
    intro g evs hne
    have hb : b ≠ [] := hne b (List.mem_cons_self _ _)
    have hlen : b.length > 0 := List.length_pos.2 hb
    have hstep : removeBatchStep nm (g, evs) b =
        ((g.removeFromThreads nm b).1, evs ++ [Ev.removeTags nm b]) := by
      unfold removeBatchStep
      rw [if_pos hlen]
      rfl
    rw [List.foldl_cons, hstep]
    rcases ih (g.removeFromThreads nm b).1 (evs ++ [Ev.removeTags nm b])
      (fun x hx => hne x (List.mem_cons_of_mem _ hx)) with ⟨h1, h2⟩
    refine ⟨?_, ?_⟩
    · rw [h1, List.append_assoc]
      simp
    · rw [h2, removeFromThreads_labels]

/-! ### Sheet operation lemmas -/

theorem updateRow_length (l : List SheetRow) (i : Nat) (f : SheetRow → SheetRow) :
    (updateRow l i f).length = l.length := by
  induction l generalizing i with
  | nil => rfl
  | cons r rs ih =>
    cases i with
    | zero => rfl
    | succ j => simp [updateRow, ih]

theorem updateRow_map_name {f : SheetRow → SheetRow}
    (hf : ∀ r, (f r).nameCell = r.nameCell) (l : List SheetRow) (i : Nat) :
    (updateRow l i f).map (fun r => r.nameCell) = l.map (fun r => r.nameCell) := by
  induction l generalizing i with
  | nil => rfl
  | cons r rs ih =>
    cases i with
    | zero => simp [updateRow, hf]
    | succ j => simp [updateRow, ih]

theorem updateRow_map_id {f : SheetRow → SheetRow}
    (hf : ∀ r, (f r).idCell = r.idCell) (l : List SheetRow) (i : Nat) :
    (updateRow l i f).map (fun r => r.idCell) = l.map (fun r => r.idCell) := by
  induction l generalizing i with
  | nil => rfl
  | cons r rs ih =>
    cases i with
    | zero => simp [updateRow, hf]
    | succ j => simp [updateRow, ih]

theorem updateRow_getElem? (l : List SheetRow) (i : Nat) (f : SheetRow → SheetRow) :
    (updateRow l i f)[i]? = (l[i]?).map f := by
  induction l generalizing i with
  | nil => cases i <;> rfl
  | cons r rs ih =>
    cases i with
    | zero => simp [updateRow]
    | succ j => simpa [updateRow] using ih j

theorem setIdCell_gmail (s : St) (row : Nat) (v : String) :
    (setIdCell s row v).gmail = s.gmail := rfl

theorem setNameCell_gmail (s : St) (row : Nat) (v : String) :
    (setNameCell s row v).gmail = s.gmail := rfl

theorem setIdCell_map_name (s : St) (row : Nat) (v : String) :
    (setIdCell s row v).sheet.map (fun r => r.nameCell) =
      s.sheet.map (fun r => r.nameCell) := by
  unfold setIdCell
  exact @updateRow_map_name (fun r => { r with idCell := v }) (fun _ => rfl) s.sheet row

theorem setNameCell_map_id (s : St) (row : Nat) (v : String) :
    (setNameCell s row v).sheet.map (fun r => r.idCell) =
      s.sheet.map (fun r => r.idCell) := by
  unfold setNameCell
  exact @updateRow_map_id (fun r => { r with nameCell := v }) (fun _ => rfl) s.sheet row

theorem setIdCell_length (s : St) (row : Nat) (v : String) :
    (setIdCell s row v).sheet.length = s.sheet.length :=
  updateRow_length _ _ _

theorem localHas_iff {sheet : List SheetRow} {n : String} :
    localHas sheet n = true ↔ ∃ r ∈ sheet, r.nameCell = n := by
  unfold localHas
  rw [List.any_eq_true]
  constructor
  · rintro ⟨r, hr, he⟩; exact ⟨r, hr, beq_iff_eq.1 he⟩
  · rintro ⟨r, hr, he⟩; exact ⟨r, hr, beq_iff_eq.2 he⟩

theorem localHas_append_mono {sheet ext : List SheetRow} {n : String}
    (h : localHas sheet n = true) : localHas (sheet ++ ext) n = true := by
  rcases localHas_iff.1 h with ⟨r, hr, he⟩
  exact localHas_iff.2 ⟨r, List.mem_append.2 (Or.inl hr), he⟩

theorem mem_sheetNamesNE {sheet : List SheetRow} {n : String} :
    n ∈ sheetNamesNE sheet ↔ (∃ r ∈ sheet, r.nameCell = n) ∧ n ≠ "" := by
  unfold sheetNamesNE
  rw [List.mem_filter]
  constructor
  · rintro ⟨h1, h2⟩
    rcases List.mem_map.1 h1 with ⟨r, hr, he⟩
    exact ⟨⟨r, hr, he⟩, by simpa using h2⟩
  · rintro ⟨⟨r, hr, he⟩, h2⟩
    exact ⟨List.mem_map.2 ⟨r, hr, he⟩, by simpa using h2⟩

theorem sheetMapAux_isSome :
    ∀ (rs : List SheetRow) (i : Nat) (m : List (String × Nat)) (n : String),
      (objGet (sheetMapAux i m rs) n).isSome = true ↔
        (objGet m n).isSome = true ∨ n ∈ sheetNamesNE rs := by
  intro rs
  induction rs with
  | nil =>
    intro i m n
    simp [sheetMapAux, sheetNamesNE]
  | cons r rs ih =>
    intro i m n
    show (objGet (sheetMapAux (i + 1) (if r.nameCell = "" then m else objInsert m r.nameCell i) rs) n).isSome = true ↔ _
    rw [ih]
    have hne : n ∈ sheetNamesNE (r :: rs) ↔
        (r.nameCell = n ∧ n ≠ "") ∨ n ∈ sheetNamesNE rs := by
      rw [mem_sheetNamesNE, mem_sheetNamesNE]
      constructor
      · rintro ⟨⟨q, hq, he⟩, hn⟩
        rcases List.mem_cons.1 hq with rfl | hq'
        · exact Or.inl ⟨he, hn⟩
        · exact Or.inr ⟨⟨q, hq', he⟩, hn⟩
      · rintro (⟨he, hn⟩ | ⟨⟨q, hq, he⟩, hn⟩)
        · exact ⟨⟨r, List.mem_cons_self _ _, he⟩, hn⟩
        · exact ⟨⟨q, List.mem_cons_of_mem _ hq, he⟩, hn⟩
    rw [hne]
    by_cases hr : r.nameCell = ""
    · rw [if_pos hr]
      constructor
      · rintro (h | h)
        · exact Or.inl h
        · exact Or.inr (Or.inr h)
      · rintro (h | ⟨he, hn⟩ | h)
        · exact Or.inl h
        · exact absurd (he.symm.trans hr) hn
        · exact Or.inr h
    · rw [if_neg hr]
      have : (objGet (objInsert m r.nameCell i) n).isSome = true ↔
          (objGet m n).isSome = true ∨ n = r.nameCell := by
        rw [objGet_objInsert]
        by_cases hn : n = r.nameCell
        · simp [hn]
        · simp [hn]
      rw [this]
      constructor
      · rintro ((h | h) | h)
        · exact Or.inl h
        · exact Or.inr (Or.inl ⟨h.symm, fun hc => hr (h ▸ hc)⟩)
        · exact Or.inr (Or.inr h)
      · rintro (h | ⟨he, hn⟩ | h)
        · exact Or.inl (Or.inl h)
        · exact Or.inl (Or.inr he.symm)
        · exact Or.inr h

/-! ### Hierarchy resolver (addParentLabelsToSheet) lemmas -/

theorem getLabelId_none_of_not_hasName {g : GmailState} {n : String}
    (h : g.hasName n = false) : getLabelId true g n = none := by
  rcases hq : getLabelId true g n with _ | v
  · rfl
  · rw [getLabelId_some_hasName hq] at h
    exact absurd h (by simp)

theorem hasName_append_mono {g g' : GmailState} {e0 : List RemoteLabel}
    (h : g'.labels = g.labels ++ e0) {x : String} (hx : g.hasName x = true) :
    g'.hasName x = true := by
  rcases List.any_eq_true.1 hx with ⟨l, hl, he⟩
  apply List.any_eq_true.2
  exact ⟨l, by rw [h]; exact List.mem_append.2 (Or.inl hl), he⟩

theorem hasName_append_other {g g' : GmailState} {e0 : List RemoteLabel} {p x : String}
    (h : g'.labels = g.labels ++ e0) (he : ∀ l ∈ e0, l.name = p) (hx : x ≠ p) :
    g'.hasName x = g.hasName x := by
  have hiff : g'.hasName x = true ↔ g.hasName x = true := by
    constructor
    · intro hh
      rcases List.any_eq_true.1 hh with ⟨l, hl, hb⟩
      rw [h] at hl
      rcases List.mem_append.1 hl with hl' | hl'
      · exact List.any_eq_true.2 ⟨l, hl', hb⟩
      · exact absurd (beq_iff_eq.1 hb) (by rw [he l hl']; exact fun hc => hx hc.symm)
    · intro hh
      exact hasName_append_mono h hh
  cases h1 : g.hasName x
  · cases h2 : g'.hasName x
    · rfl
    · rw [h1] at hiff
      exact absurd (hiff.1 h2) (by simp)
  · exact hiff.2 h1

theorem isSome_objInsert {α : Type} (m : List (String × α)) (k k' : String) (v : α) :
    (objGet (objInsert m k v) k').isSome = true ↔
      (objGet m k').isSome = true ∨ k' = k := by
  rw [objGet_objInsert]
  by_cases h : k' = k
  · simp [h]
  · simp [h]

theorem addParentStep_char (ok : Bool) (t : St × List Ev × List (String × Nat))
    (p : String) :
    ∃ e0 s0,
      (addParentStep ok t p).1.gmail.labels = t.1.gmail.labels ++ e0 ∧
      (∀ l ∈ e0, l.ltype = LabelType.user ∧ l.name = p ∧ l.id ≠ "") ∧
      (addParentStep ok t p).1.sheet = t.1.sheet ++ s0 ∧
      (∀ r ∈ s0, r.nameCell = p) ∧
      (addParentStep ok t p).1.gmail.tags = t.1.gmail.tags := by
  rcases t with ⟨s, evs, m⟩
  rcases hg : getLabelId ok s.gmail p with _ | v
  · rcases hm : objGet m p with _ | j
    · simp only [addParentStep, hg, hm]
      rcases gcreate_labels_ext s.gmail p with ⟨ext, hext, hprop⟩
      refine ⟨ext, [⟨(getLabelId ok (s.gmail.createLabel p).1 p).getD "", p⟩],
        hext, hprop, rfl, ?_, gcreate_tags _ _⟩
      intro r hr
      have hr' : r = ⟨(getLabelId ok (s.gmail.createLabel p).1 p).getD "", p⟩ := by
        simpa using hr
      rw [hr']
    · simp only [addParentStep, hg, hm]
      rcases gcreate_labels_ext s.gmail p with ⟨ext, hext, hprop⟩
      refine ⟨ext, [], hext, hprop, by simp, ?_, gcreate_tags _ _⟩
      intro r hr
      exact absurd hr (by simp)
  · rcases hm : objGet m p with _ | j
    · simp only [addParentStep, hg, hm]
      refine ⟨[], [⟨(some v).getD "", p⟩], ?_, ?_, ?_, ?_, ?_⟩
      · simp
      · intro l hl
        exact absurd hl (by simp)
      · rfl
      · intro r hr
        have hr' : r = ⟨(some v).getD "", p⟩ := by simpa using hr
        rw [hr']
      · trivial
    · simp only [addParentStep, hg, hm]
      refine ⟨[], [], ?_, ?_, ?_, ?_, ?_⟩
      · simp
      · intro l hl
        exact absurd hl (by simp)
      · simp
      · intro r hr
        exact absurd hr (by simp)
      · trivial

theorem apfold_ext (ok : Bool) (ps : List String) :
    ∀ (t : St × List Ev × List (String × Nat)),
      ∃ extL extS,
        (ps.foldl (addParentStep ok) t).1.gmail.labels = t.1.gmail.labels ++ extL ∧
        (∀ l ∈ extL, l.ltype = LabelType.user ∧ l.name ∈ ps ∧ l.id ≠ "") ∧
        (ps.foldl (addParentStep ok) t).1.sheet = t.1.sheet ++ extS ∧
        (∀ r ∈ extS, r.nameCell ∈ ps) ∧
        (ps.foldl (addParentStep ok) t).1.gmail.tags = t.1.gmail.tags := by
  induction ps with
  | nil => intro t; exact ⟨[], [], by simp, by simp, by simp, by simp, rfl⟩
  | cons p ps ih =>
    intro t
    rcases addParentStep_char ok t p with ⟨e0, s0, h1, h2, h3, h4, h5⟩
    rcases ih (addParentStep ok t p) with ⟨extL, extS, g1, g2, g3, g4, g5⟩
    refine ⟨e0 ++ extL, s0 ++ extS, ?_, ?_, ?_, ?_, ?_⟩
    · rw [List.foldl_cons, g1, h1, List.append_assoc]
    · intro l hl
      rcases List.mem_append.1 hl with hl' | hl'
      · exact ⟨(h2 l hl').1, by rw [(h2 l hl').2.1]; exact List.mem_cons_self _ _,
          (h2 l hl').2.2⟩
      · exact ⟨(g2 l hl').1, List.mem_cons_of_mem _ (g2 l hl').2.1, (g2 l hl').2.2⟩
    · rw [List.foldl_cons, g3, h3, List.append_assoc]
    · intro r hr
      rcases List.mem_append.1 hr with hr' | hr'
      · rw [h4 r hr']; exact List.mem_cons_self _ _
      · exact List.mem_cons_of_mem _ (g4 r hr')
    · rw [List.foldl_cons, g5, h5]

theorem apfold_invariant (ps : List String) :
    ∀ (t : St × List Ev × List (String × Nat)),
      (∀ x, (objGet t.2.2 x).isSome = true → localHas t.1.sheet x = true) →
      ∀ p ∈ ps,
        (ps.foldl (addParentStep true) t).1.gmail.hasName p = true ∧
        localHas (ps.foldl (addParentStep true) t).1.sheet p = true := by
  induction ps with
  | nil => intro t _ p hp; exact absurd hp (by simp)
  | cons q ps ih =>
    intro t hm p hp
    rcases t with ⟨s, evs, m⟩
    -- facts about the single step on q
    have hstep : (addParentStep true (s, evs, m) q).1.gmail.hasName q = true ∧
        localHas (addParentStep true (s, evs, m) q).1.sheet q = true ∧
        (∀ x, (objGet (addParentStep true (s, evs, m) q).2.2 x).isSome = true →
          localHas (addParentStep true (s, evs, m) q).1.sheet x = true) := by
      rcases hg : getLabelId true s.gmail q with _ | v
      · rcases hmq : objGet m q with _ | j
        · simp only [addParentStep, hg, hmq]
          refine ⟨?_, ?_, ?_⟩
          · exact gcreate_hasName_self s.gmail q
          · exact localHas_iff.2 ⟨⟨(getLabelId true (s.gmail.createLabel q).1 q).getD "", q⟩,
              List.mem_append.2 (Or.inr (by simp)), rfl⟩
          · intro x hx
            rcases (isSome_objInsert m q x _).1 hx with hx' | hxq
            · exact localHas_append_mono (hm x hx')
            · rw [hxq]
              exact localHas_iff.2 ⟨⟨(getLabelId true (s.gmail.createLabel q).1 q).getD "", q⟩,
                List.mem_append.2 (Or.inr (by simp)), rfl⟩
        · simp only [addParentStep, hg, hmq]
          refine ⟨gcreate_hasName_self s.gmail q, ?_, hm⟩
          · exact hm q (by rw [hmq]; rfl)
      · rcases hmq : objGet m q with _ | j
        · simp only [addParentStep, hg, hmq]
          refine ⟨?_, ?_, ?_⟩
          · exact getLabelId_some_hasName hg
          · exact localHas_iff.2 ⟨⟨(some v).getD "", q⟩,
              List.mem_append.2 (Or.inr (by simp)), rfl⟩
          · intro x hx
            rcases (isSome_objInsert m q x _).1 hx with hx' | hxq
            · exact localHas_append_mono (hm x hx')
            · rw [hxq]
              exact localHas_iff.2 ⟨⟨(some v).getD "", q⟩,
                List.mem_append.2 (Or.inr (by simp)), rfl⟩
        · simp only [addParentStep, hg, hmq]
          refine ⟨getLabelId_some_hasName hg, hm q (by rw [hmq]; rfl), hm⟩
    rcases List.mem_cons.1 hp with rfl | hp'
    · -- p is the head: established at the step, preserved by the rest
      rcases apfold_ext true ps (addParentStep true (s, evs, m) p) with
        ⟨extL, extS, g1, _, g3, _, _⟩
      rw [List.foldl_cons]
      exact ⟨hasName_append_mono g1 hstep.1,
        by rw [g3]; exact localHas_append_mono hstep.2.1⟩
    · rw [List.foldl_cons]
      exact ih (addParentStep true (s, evs, m) q) hstep.2.2 p hp'

theorem createdInGmailOf_append (a b : List Ev) :
    createdInGmailOf (a ++ b) = createdInGmailOf a ++ createdInGmailOf b :=
  List.filterMap_append _ _ _

theorem addedToSheetOf_append (a b : List Ev) :
    addedToSheetOf (a ++ b) = addedToSheetOf a ++ addedToSheetOf b :=
  List.filterMap_append _ _ _

theorem gcreate_events_of_not_hasName {g : GmailState} {n : String}
    (h : g.hasName n = false) : (g.createLabel n).2 = [Ev.createRemote n] := by
  rw [gcreate_of_not_hasName h]

theorem gcreate_events_of_hasName {g : GmailState} {n : String}
    (h : g.hasName n = true) : (g.createLabel n).2 = [] := by
  rw [gcreate_of_hasName h]

theorem addParentStep_events (t : St × List Ev × List (String × Nat)) (p : String) :
    createdInGmailOf (addParentStep true t p).2.1 =
      createdInGmailOf t.2.1 ++
        (if t.1.gmail.hasName p = true then [] else [p]) := by
  rcases t with ⟨s, evs, m⟩
  rcases hg : getLabelId true s.gmail p with _ | v
  · rcases hm : objGet m p with _ | j
    · simp only [addParentStep, hg, hm]
      cases hh : s.gmail.hasName p
      · rw [gcreate_events_of_not_hasName hh]
        simp [createdInGmailOf_append, createdInGmailOf]
      · rw [gcreate_events_of_hasName hh]
        simp [createdInGmailOf_append, createdInGmailOf]
    · simp only [addParentStep, hg, hm]
      cases hh : s.gmail.hasName p
      · rw [gcreate_events_of_not_hasName hh]
        simp [createdInGmailOf_append, createdInGmailOf]
      · rw [gcreate_events_of_hasName hh]
        simp [createdInGmailOf_append, createdInGmailOf]
  · have hh : s.gmail.hasName p = true := getLabelId_some_hasName hg
    rcases hm : objGet m p with _ | j
    · simp [addParentStep, hg, hm, hh, createdInGmailOf_append, createdInGmailOf]
    · simp [addParentStep, hg, hm, hh]

theorem addParentStep_hasName_other (t : St × List Ev × List (String × Nat))
    {p x : String} (hx : x ≠ p) :
    (addParentStep true t p).1.gmail.hasName x = t.1.gmail.hasName x := by
  rcases addParentStep_char true t p with ⟨e0, _, h1, h2, _, _, _⟩
  exact hasName_append_other h1 (fun l hl => (h2 l hl).2.1) hx

theorem apfold_events (ps : List String) :
    ∀ (t : St × List Ev × List (String × Nat)), ps.Nodup →
      createdInGmailOf (ps.foldl (addParentStep true) t).2.1 =
        createdInGmailOf t.2.1 ++ ps.filter (fun p => !t.1.gmail.hasName p) := by
  induction ps with
  | nil => intro t _; simp
  | cons q ps ih =>
    intro t hnd
    have hq : q ∉ ps := (List.nodup_cons.1 hnd).1
    rw [List.foldl_cons, ih _ (List.nodup_cons.1 hnd).2, addParentStep_events]
    have hfilter : ps.filter (fun p => !(addParentStep true t q).1.gmail.hasName p) =
        ps.filter (fun p => !t.1.gmail.hasName p) := by
      apply List.filter_congr
      intro x hx
      rw [addParentStep_hasName_other t (fun hc => hq (by rw [← hc]; exact hx))]
    rw [hfilter, List.filter_cons]
    cases hh : t.1.gmail.hasName q
    · simp [hh, List.append_assoc]
    · simp [hh, List.append_assoc]

theorem addParentStep_events_shape (ok : Bool) (t : St × List Ev × List (String × Nat))
    (p : String) :
    ∀ e ∈ (addParentStep ok t p).2.1,
      e ∈ t.2.1 ∨ (∃ n, e = Ev.createRemote n) ∨ (∃ n, e = Ev.appendRow n) := by
  rcases t with ⟨s, evs, m⟩
  have hcre : ∀ e ∈ (s.gmail.createLabel p).2, e = Ev.createRemote p := by
    intro e he
    cases hh : s.gmail.hasName p
    · rw [gcreate_events_of_not_hasName hh] at he
      simpa using he
    · rw [gcreate_events_of_hasName hh] at he
      exact absurd he (by simp)
  rcases hg : getLabelId ok s.gmail p with _ | v
  · rcases hm : objGet m p with _ | j
    · simp only [addParentStep, hg, hm]
      intro e he
      rcases List.mem_append.1 he with he' | he'
      · rcases List.mem_append.1 he' with he'' | he''
        · exact Or.inl he''
        · exact Or.inr (Or.inl ⟨p, hcre e he''⟩)
      · exact Or.inr (Or.inr ⟨p, by simpa using he'⟩)
    · simp only [addParentStep, hg, hm]
      intro e he
      rcases List.mem_append.1 he with he' | he'
      · exact Or.inl he'
      · exact Or.inr (Or.inl ⟨p, hcre e he'⟩)
  · rcases hm : objGet m p with _ | j
    · simp only [addParentStep, hg, hm]
      intro e he
      rcases List.mem_append.1 he with he' | he'
      · exact Or.inl he'
      · exact Or.inr (Or.inr ⟨p, by simpa using he'⟩)
    · simp only [addParentStep, hg, hm]
      intro e he
      exact Or.inl he

theorem apfold_events_shape (ok : Bool) (ps : List String) :
    ∀ (t : St × List Ev × List (String × Nat)),
      ∀ e ∈ (ps.foldl (addParentStep ok) t).2.1,
        e ∈ t.2.1 ∨ (∃ n, e = Ev.createRemote n) ∨ (∃ n, e = Ev.appendRow n) := by
  induction ps with
  | nil => intro t e he; exact Or.inl he
  | cons q ps ih =>
    intro t e he
    rw [List.foldl_cons] at he
    rcases ih _ e he with he' | he'
    · exact addParentStep_events_shape ok t q e he'
    · exact Or.inr he'

/-! ### addParentLabelsToSheet wrappers -/

theorem addParents_nested_eq {ok : Bool} {s : St} {labelName : String}
    (h : hasSlash labelName = true) :
    addParentLabelsToSheet ok s labelName =
      (((ancestorPaths labelName).foldl (addParentStep ok)
          (s, [], sheetLabelMapOf s.sheet)).1,
       ((ancestorPaths labelName).foldl (addParentStep ok)
          (s, [], sheetLabelMapOf s.sheet)).2.1) := by
  unfold addParentLabelsToSheet
  rw [h]
  simp

theorem addParents_not_nested {ok : Bool} {s : St} {labelName : String}
    (h : hasSlash labelName = false) :
    addParentLabelsToSheet ok s labelName = (s, []) := by
  simp [addParentLabelsToSheet, h]

theorem addParents_ext (ok : Bool) (s : St) (labelName : String) :
    ∃ extL extS,
      (addParentLabelsToSheet ok s labelName).1.gmail.labels = s.gmail.labels ++ extL ∧
      (∀ l ∈ extL, l.ltype = LabelType.user ∧ l.name ∈ ancestorPaths labelName ∧
        l.id ≠ "") ∧
      (addParentLabelsToSheet ok s labelName).1.sheet = s.sheet ++ extS ∧
      (∀ r ∈ extS, r.nameCell ∈ ancestorPaths labelName) ∧
      (addParentLabelsToSheet ok s labelName).1.gmail.tags = s.gmail.tags := by
  cases hc : hasSlash labelName
  · rw [addParents_not_nested hc]
    exact ⟨[], [], by simp, by simp, by simp, by simp, rfl⟩
  · rw [addParents_nested_eq hc]
    exact apfold_ext ok (ancestorPaths labelName) (s, [], sheetLabelMapOf s.sheet)

theorem sheetLabelMapOf_isSome {sheet : List SheetRow} {x : String} :
    (objGet (sheetLabelMapOf sheet) x).isSome = true ↔ x ∈ sheetNamesNE sheet := by
  unfold sheetLabelMapOf
  rw [sheetMapAux_isSome]
  constructor
  · rintro (h | h)
    · exact absurd h (by simp [objGet])
    · exact h
  · exact Or.inr

theorem addParents_invariant (s : St) (labelName : String)
    (h : hasSlash labelName = true) :
    ∀ p ∈ ancestorPaths labelName,
      (addParentLabelsToSheet true s labelName).1.gmail.hasName p = true ∧
      localHas (addParentLabelsToSheet true s labelName).1.sheet p = true := by
  intro p hp
  rw [addParents_nested_eq h]
  apply apfold_invariant (ancestorPaths labelName) (s, [], sheetLabelMapOf s.sheet)
    ?_ p hp
  intro x hx
  rcases mem_sheetNamesNE.1 (sheetLabelMapOf_isSome.1 hx) with ⟨⟨r, hr, he⟩, _⟩
  exact localHas_iff.2 ⟨r, hr, he⟩

theorem addParents_events_nested (s : St) (labelName : String)
    (h : hasSlash labelName = true) (hnd : (ancestorPaths labelName).Nodup) :
    createdInGmailOf (addParentLabelsToSheet true s labelName).2 =
      (ancestorPaths labelName).filter (fun p => !s.gmail.hasName p) := by
  rw [addParents_nested_eq h]
  show createdInGmailOf ((ancestorPaths labelName).foldl (addParentStep true)
    (s, [], sheetLabelMapOf s.sheet)).2.1 = _
  rw [apfold_events (ancestorPaths labelName) (s, [], sheetLabelMapOf s.sheet) hnd]
  simp [createdInGmailOf]

theorem addParents_events_shape (ok : Bool) (s : St) (labelName : String) :
    ∀ e ∈ (addParentLabelsToSheet ok s labelName).2,
      (∃ n, e = Ev.createRemote n) ∨ (∃ n, e = Ev.appendRow n) := by
  intro e he
  cases hc : hasSlash labelName
  · rw [addParents_not_nested hc] at he
    exact absurd he (by simp)
  · rw [addParents_nested_eq hc] at he
    replace he : e ∈ ((ancestorPaths labelName).foldl (addParentStep ok)
      (s, [], sheetLabelMapOf s.sheet)).2.1 := he
    rcases apfold_events_shape ok (ancestorPaths labelName)
      (s, [], sheetLabelMapOf s.sheet) e he with he' | he'
    · exact absurd he' (by simp)
    · exact he'

/-! ### Claim theorems (first batch) -/

/-- C2: a delete intent (name cell edited from a label name to empty) on a label
that exists remotely as a user label and has at least one tagged thread refuses
deletion: the whole remote state (labels and tags) is unchanged, every id cell
is unchanged, the row's name cell is restored to the prior label name, and the
conflict is reported with the tagged-item count. -/
theorem claim_C2 (s : St) (row : Nat) (labelName lid : String) (l : RemoteLabel)
    (hne : labelName ≠ "")
    (hid : getLabelId true s.gmail labelName = some lid)
    (hlbl : s.gmail.getUserLabelByName labelName = some l)
    (hcnt : 1 ≤ (s.gmail.search labelName).length) :
    handleLabelChange true s row labelName "" =
      (setNameCell s row labelName,
        [Ev.deleteBlocked labelName (s.gmail.search labelName).length]) ∧
    (setNameCell s row labelName).gmail = s.gmail ∧
    (setNameCell s row labelName).sheet.map (fun r => r.idCell) =
      s.sheet.map (fun r => r.idCell) ∧
    (setNameCell s row labelName).sheet[row]? =
      (s.sheet[row]?).map (fun r => ⟨r.idCell, labelName⟩) := by
  refine ⟨?_, rfl, setNameCell_map_id s row labelName, ?_⟩
  · have hh : ¬ (labelName = "" ∧ ("" : String) ≠ "") := fun hc => hc.2 rfl
    have hd : labelName ≠ "" ∧ ("" : String) = "" := ⟨hne, rfl⟩
    simp only [handleLabelChange, if_neg hh, if_pos hd]
    simp only [deleteLabel, hid, hlbl,
      if_pos (Nat.lt_of_lt_of_le Nat.zero_lt_one hcnt)]
    rw [if_pos (show labelName ≠ "" ∧ True from ⟨hne, trivial⟩)]
  · exact updateRow_getElem? s.sheet row _

/-- C2 witness: scenario 4 — a row whose name was edited from "Old" to "",
"Old" having 3 tagged threads: deletion refused, name restored, id kept,
conflict reported with count 3. -/
theorem claim_C2_witness :
    (("Old" : String) ≠ "" ∧
      getLabelId true ⟨[⟨"L1", "Old", LabelType.user⟩], [("Old", [1, 2, 3])], 5⟩ "Old" =
        some "L1" ∧
      (GmailState.getUserLabelByName
        ⟨[⟨"L1", "Old", LabelType.user⟩], [("Old", [1, 2, 3])], 5⟩ "Old") =
        some ⟨"L1", "Old", LabelType.user⟩ ∧
      1 ≤ ((⟨[⟨"L1", "Old", LabelType.user⟩], [("Old", [1, 2, 3])], 5⟩ : GmailState).search
        "Old").length) ∧
    (handleLabelChange true
        ⟨[⟨"L1", ""⟩], ⟨[⟨"L1", "Old", LabelType.user⟩], [("Old", [1, 2, 3])], 5⟩⟩
        0 "Old" "" =
      (setNameCell
        ⟨[⟨"L1", ""⟩], ⟨[⟨"L1", "Old", LabelType.user⟩], [("Old", [1, 2, 3])], 5⟩⟩
        0 "Old",
       [Ev.deleteBlocked "Old"
        ((⟨[⟨"L1", "Old", LabelType.user⟩], [("Old", [1, 2, 3])], 5⟩ : GmailState).search
          "Old").length]) ∧
      (setNameCell
        ⟨[⟨"L1", ""⟩], ⟨[⟨"L1", "Old", LabelType.user⟩], [("Old", [1, 2, 3])], 5⟩⟩
        0 "Old").gmail =
        ⟨[⟨"L1", "Old", LabelType.user⟩], [("Old", [1, 2, 3])], 5⟩ ∧
      (setNameCell
        ⟨[⟨"L1", ""⟩], ⟨[⟨"L1", "Old", LabelType.user⟩], [("Old", [1, 2, 3])], 5⟩⟩
        0 "Old").sheet.map (fun r => r.idCell) =
        ([⟨"L1", ""⟩] : List SheetRow).map (fun r => r.idCell) ∧
      (setNameCell
        ⟨[⟨"L1", ""⟩], ⟨[⟨"L1", "Old", LabelType.user⟩], [("Old", [1, 2, 3])], 5⟩⟩
        0 "Old").sheet[0]? =
        (([⟨"L1", ""⟩] : List SheetRow)[0]?).map (fun r => ⟨r.idCell, "Old"⟩)) :=
  ⟨⟨by decide, by decide, by decide, by decide⟩,
   claim_C2 ⟨[⟨"L1", ""⟩], ⟨[⟨"L1", "Old", LabelType.user⟩], [("Old", [1, 2, 3])], 5⟩⟩
     0 "Old" "L1" ⟨"L1", "Old", LabelType.user⟩
     (by decide) (by decide) (by decide) (by decide)⟩

/-- C9: the row-change processor compares the old and new name cells by exact
string equality, with no trimming: when old = new (including both empty)
nothing runs and the state is unchanged with no events, and an edit from "A"
to the whitespace string " " is dispatched as a Rename (updateLabel), not a
Delete. -/
theorem claim_C9 (ok : Bool) (s : St) (row : Nat) (v : String) :
    handleLabelChange ok s row v v = (s, []) ∧
    handleLabelChange ok s row "A" " " = updateLabel ok s row "A" " " := by
  constructor
  · by_cases h : v = "" <;> simp [handleLabelChange, h]
  · simp only [handleLabelChange]
    rw [if_neg (by decide), if_neg (by decide), if_pos (by decide)]

/-- C3: the reconciliation's return value.  The claim says syncAllLabels
returns a SyncResult with createdInGmail/addedToSheet; the JS function body
(sync.js lines 31-122) has no return statement, so every invocation returns
undefined — modelled: the returned payload is always `none`, never a
SyncResult.  Its own caller (ui.js onOpenWithFullPermissions →
showSyncResults) expects the record, so the code, not the claim, is wrong. -/
theorem claim_C3_code_eval (ok : Bool) (s : St) : syncAllLabelsReturn ok s = none := rfl

/-- C8 counterexample: name→id lookups do return system labels — getLabelMap
builds the map over the full listing with no type filter, so getLabelId of the
reserved name INBOX over a store holding only the system INBOX label yields
its id instead of null. -/
theorem claim_C8_counterexample :
    getLabelId true ⟨[⟨"S1", "INBOX", LabelType.system⟩], [], 0⟩ "INBOX" =
      some "S1" := by
  decide

/-- C4 counterexample: a Create of "A/B" when "A/B" already exists remotely
adopts the existing id and returns without any ancestor creation, so after the
operation the proper ancestor "A" exists in neither the remote nor the local
store. -/
theorem claim_C4_counterexample :
    ("A" ∈ ancestorPaths "A/B") ∧
    (handleLabelChange true
        ⟨[⟨"", "A/B"⟩], ⟨[⟨"L9", "A/B", LabelType.user⟩], [], 0⟩⟩
        0 "" "A/B").1.gmail.hasName "A" = false ∧
    localHas (handleLabelChange true
        ⟨[⟨"", "A/B"⟩], ⟨[⟨"L9", "A/B", LabelType.user⟩], [], 0⟩⟩
        0 "" "A/B").1.sheet "A" = false := by
  refine ⟨?_, ?_, ?_⟩ <;> decide

/-- C1 counterexample: the post-state name set is not the union of the
pre-state local and remote name sets — syncing a sheet holding only "A/B"
against an empty remote store also creates the ancestor label "A" remotely
(and adopts it locally), and "A" is in neither pre-state name set. -/
theorem claim_C1_counterexample :
    ("A" ∈ gmailNames (syncAllLabels true ⟨[⟨"", "A/B"⟩], ⟨[], [], 0⟩⟩).1.gmail) ∧
    ("A" ∉ sheetNamesNE ([⟨"", "A/B"⟩] : List SheetRow)) ∧
    ("A" ∉ gmailNames (⟨[], [], 0⟩ : GmailState)) := by
  refine ⟨?_, ?_, ?_⟩ <;> decide

/-! ### Sync step 2 analysis -/

/-- The remote-create calls one sheetLabelMap entry can give rise to, as
decided by the stale labelMap snapshot: nothing when the name is truthy in the
snapshot, else the snapshot-missing ancestors (for nested names) and then the
name itself. -/
def entryCalls (lm : List (String × String)) (n : String) : List String :=
  if jsTruthy (objGet lm n) then []
  else
    (if hasSlash n then
      (ancestorPaths n).filter (fun p => !(jsTruthy (objGet lm p)))
     else []) ++ [n]

def syncCalls (lm : List (String × String)) (entries : List (String × Nat)) :
    List String :=
  entries.foldr (fun e acc => entryCalls lm e.1 ++ acc) []

theorem syncCalls_cons (lm : List (String × String)) (e : String × Nat)
    (es : List (String × Nat)) :
    syncCalls lm (e :: es) = entryCalls lm e.1 ++ syncCalls lm es := rfl

theorem mem_syncCalls {lm : List (String × String)} {entries : List (String × Nat)}
    {x : String} :
    x ∈ syncCalls lm entries ↔ ∃ e ∈ entries, x ∈ entryCalls lm e.1 := by
  induction entries with
  | nil => simp [syncCalls]
  | cons e es ih =>
    rw [syncCalls_cons, List.mem_append, ih]
    constructor
    · rintro (h | ⟨e', he', hx⟩)
      · exact ⟨e, List.mem_cons_self _ _, h⟩
      · exact ⟨e', List.mem_cons_of_mem _ he', hx⟩
    · rintro ⟨e', he', hx⟩
      rcases List.mem_cons.1 he' with rfl | he''
      · exact Or.inl hx
      · exact Or.inr ⟨e', he'', hx⟩

theorem syncParentStep_char (lm : List (String × String)) (a : St × List Ev)
    (p : String) :
    ∃ ext, (syncParentStep lm a p).1.gmail.labels = a.1.gmail.labels ++ ext ∧
      (∀ l ∈ ext, l.ltype = LabelType.user ∧ l.name = p ∧ l.id ≠ "" ∧
        jsTruthy (objGet lm p) = false) ∧
      (syncParentStep lm a p).1.sheet = a.1.sheet ∧
      (syncParentStep lm a p).1.gmail.tags = a.1.gmail.tags ∧
      addedToSheetOf (syncParentStep lm a p).2 = addedToSheetOf a.2 := by
  by_cases ht : jsTruthy (objGet lm p)
  · unfold syncParentStep
    rw [if_pos ht]
    exact ⟨[], by simp, by simp, rfl, rfl, rfl⟩
  · unfold syncParentStep
    rw [if_neg ht]
    rcases gcreate_labels_ext a.1.gmail p with ⟨ext, hext, hprop⟩
    refine ⟨ext, hext, ?_, rfl, gcreate_tags _ _, ?_⟩
    · intro l hl
      exact ⟨(hprop l hl).1, (hprop l hl).2.1, (hprop l hl).2.2,
        by simpa using ht⟩
    · rw [addedToSheetOf_append]
      have : addedToSheetOf (a.1.gmail.createLabel p).2 = [] := by
        cases hh : a.1.gmail.hasName p
        · rw [gcreate_events_of_not_hasName hh]; rfl
        · rw [gcreate_events_of_hasName hh]; rfl
      rw [this, List.append_nil]

theorem syncParentStep_hasName_iff (lm : List (String × String)) (a : St × List Ev)
    (p x : String) :
    (syncParentStep lm a p).1.gmail.hasName x = true ↔
      a.1.gmail.hasName x = true ∨
        (x = p ∧ jsTruthy (objGet lm p) = false) := by
  by_cases ht : jsTruthy (objGet lm p)
  · unfold syncParentStep
    rw [if_pos ht]
    constructor
    · exact Or.inl
    · rintro (h | ⟨_, hcon⟩)
      · exact h
      · rw [ht] at hcon; exact absurd hcon (by simp)
  · unfold syncParentStep
    rw [if_neg ht]
    rw [gcreate_hasName_iff]
    constructor
    · rintro (h | rfl)
      · exact Or.inl h
      · exact Or.inr ⟨rfl, by simpa using ht⟩
    · rintro (h | ⟨rfl, _⟩)
      · exact Or.inl h
      · exact Or.inr rfl

theorem syncParentStep_noop (lm : List (String × String)) (a : St × List Ev)
    (p : String) (h : jsTruthy (objGet lm p) = false → a.1.gmail.hasName p = true) :
    syncParentStep lm a p = a := by
  by_cases ht : jsTruthy (objGet lm p)
  · unfold syncParentStep
    rw [if_pos ht]
  · unfold syncParentStep
    rw [if_neg ht, gcreate_of_hasName (h (by simpa using ht))]
    simp

theorem spfold_char (lm : List (String × String)) (ps : List String) :
    ∀ (a : St × List Ev),
      ∃ ext, (ps.foldl (syncParentStep lm) a).1.gmail.labels =
          a.1.gmail.labels ++ ext ∧
        (∀ l ∈ ext, l.ltype = LabelType.user ∧
          l.name ∈ ps.filter (fun p => !(jsTruthy (objGet lm p))) ∧ l.id ≠ "") ∧
        (ps.foldl (syncParentStep lm) a).1.sheet = a.1.sheet ∧
        (ps.foldl (syncParentStep lm) a).1.gmail.tags = a.1.gmail.tags ∧
        addedToSheetOf (ps.foldl (syncParentStep lm) a).2 = addedToSheetOf a.2 ∧
        (∀ x, (ps.foldl (syncParentStep lm) a).1.gmail.hasName x = true ↔
          a.1.gmail.hasName x = true ∨
            x ∈ ps.filter (fun p => !(jsTruthy (objGet lm p)))) := by
  induction ps with
  | nil =>
    intro a
    exact ⟨[], by simp, by simp, rfl, rfl, rfl, by simp⟩
  | cons q ps ih =>
    intro a
    rcases syncParentStep_char lm a q with ⟨e0, h1, h2, h3, h4, h5⟩
    rcases ih (syncParentStep lm a q) with ⟨ext, g1, g2, g3, g4, g5, g6⟩
    refine ⟨e0 ++ ext, ?_, ?_, ?_, ?_, ?_, ?_⟩
    · rw [List.foldl_cons, g1, h1, List.append_assoc]
    · intro l hl
      rcases List.mem_append.1 hl with hl' | hl'
      · refine ⟨(h2 l hl').1, List.mem_filter.2 ⟨?_, ?_⟩, (h2 l hl').2.2.1⟩
        · rw [(h2 l hl').2.1]
          exact List.mem_cons_self _ _
        · rw [(h2 l hl').2.1]
          simp [(h2 l hl').2.2.2]
      · rcases List.mem_filter.1 (g2 l hl').2.1 with ⟨hm1, hc1⟩
        exact ⟨(g2 l hl').1, List.mem_filter.2 ⟨List.mem_cons_of_mem _ hm1, hc1⟩,
          (g2 l hl').2.2⟩
    · rw [List.foldl_cons, g3, h3]
    · rw [List.foldl_cons, g4, h4]
    · rw [List.foldl_cons, g5, h5]
    · intro x
      rw [List.foldl_cons, g6 x, syncParentStep_hasName_iff]
      constructor
      · rintro ((h | ⟨rfl, ht⟩) | h)
        · exact Or.inl h
        · exact Or.inr (List.mem_filter.2 ⟨List.mem_cons_self _ _, by simp [ht]⟩)
        · rcases List.mem_filter.1 h with ⟨hmem, hcond⟩
          exact Or.inr (List.mem_filter.2 ⟨List.mem_cons_of_mem _ hmem, hcond⟩)
      · rintro (h | h)
        · exact Or.inl (Or.inl h)
        · rcases List.mem_filter.1 h with ⟨hmem, hcond⟩
          rcases List.mem_cons.1 hmem with rfl | hmem'
          · exact Or.inl (Or.inr ⟨rfl, by simpa using hcond⟩)
          · exact Or.inr (List.mem_filter.2 ⟨hmem', hcond⟩)

theorem spfold_noop (lm : List (String × String)) (ps : List String) :
    ∀ (a : St × List Ev),
      (∀ p ∈ ps, jsTruthy (objGet lm p) = false → a.1.gmail.hasName p = true) →
      ps.foldl (syncParentStep lm) a = a := by
  induction ps with
  | nil => intro a _; rfl
  | cons q ps ih =>
    intro a h
    rw [List.foldl_cons, syncParentStep_noop lm a q (h q (List.mem_cons_self _ _))]
    exact ih a (fun p hp => h p (List.mem_cons_of_mem _ hp))

theorem entryCalls_truthy {lm : List (String × String)} {n : String}
    (ht : jsTruthy (objGet lm n) = true) : entryCalls lm n = [] := by
  unfold entryCalls
  rw [if_pos ht]

theorem self_mem_entryCalls {lm : List (String × String)} {n : String}
    (ht : jsTruthy (objGet lm n) = false) : n ∈ entryCalls lm n := by
  unfold entryCalls
  rw [if_neg (by simp [ht])]
  exact List.mem_append.2 (Or.inr (by simp))

theorem condParents_char (lm : List (String × String)) (b : Bool) (ps : List String)
    (a : St × List Ev) :
    ∃ ext1,
      (if b then ps.foldl (syncParentStep lm) a else a).1.gmail.labels =
        a.1.gmail.labels ++ ext1 ∧
      (∀ l ∈ ext1, l.ltype = LabelType.user ∧
        l.name ∈ (if b then ps.filter (fun p => !(jsTruthy (objGet lm p))) else []) ∧
        l.id ≠ "") ∧
      (if b then ps.foldl (syncParentStep lm) a else a).1.sheet = a.1.sheet ∧
      (if b then ps.foldl (syncParentStep lm) a else a).1.gmail.tags =
        a.1.gmail.tags ∧
      addedToSheetOf (if b then ps.foldl (syncParentStep lm) a else a).2 =
        addedToSheetOf a.2 ∧
      (∀ x, (if b then ps.foldl (syncParentStep lm) a else a).1.gmail.hasName x =
          true ↔
        a.1.gmail.hasName x = true ∨
          x ∈ (if b then ps.filter (fun p => !(jsTruthy (objGet lm p))) else [])) := by
  cases b
  · refine ⟨[], ?_, ?_, rfl, rfl, rfl, ?_⟩
    · simp
    · intro l hl
      exact absurd hl (by simp)
    · intro x
      simp
  · simpa using spfold_char lm ps a

theorem spn_char (ok : Bool) (lm : List (String × String)) (acc : St × List Ev)
    (entry : String × Nat) :
    ∃ ext, (syncProcessName ok lm acc entry).1.gmail.labels =
        acc.1.gmail.labels ++ ext ∧
      (∀ l ∈ ext, l.ltype = LabelType.user ∧ l.name ∈ entryCalls lm entry.1 ∧
        l.id ≠ "") ∧
      (syncProcessName ok lm acc entry).1.sheet.map (fun r => r.nameCell) =
        acc.1.sheet.map (fun r => r.nameCell) ∧
      (syncProcessName ok lm acc entry).1.gmail.tags = acc.1.gmail.tags ∧
      addedToSheetOf (syncProcessName ok lm acc entry).2 = addedToSheetOf acc.2 ∧
      (∀ x, (syncProcessName ok lm acc entry).1.gmail.hasName x = true ↔
        acc.1.gmail.hasName x = true ∨ x ∈ entryCalls lm entry.1) := by
  by_cases ht : jsTruthy (objGet lm entry.1)
  · rw [entryCalls_truthy ht]
    unfold syncProcessName
    rw [if_pos ht]
    refine ⟨[], ?_, ?_, ?_, ?_, ?_, ?_⟩
    · rw [setIdCell_gmail]
      simp
    · intro l hl
      exact absurd hl (by simp)
    · exact setIdCell_map_name _ _ _
    · rw [setIdCell_gmail]
    · rfl
    · intro x
      rw [setIdCell_gmail]
      simp
  · have hne : ¬ (jsTruthy (objGet lm entry.1) = true) := by simpa using ht
    have hcalls : entryCalls lm entry.1 =
        (if hasSlash entry.1 then
          (ancestorPaths entry.1).filter (fun p => !(jsTruthy (objGet lm p)))
         else []) ++ [entry.1] := by
      unfold entryCalls
      rw [if_neg hne]
    rcases condParents_char lm (hasSlash entry.1) (ancestorPaths entry.1)
      (acc.1, acc.2) with ⟨ext1, a1, a2, a3, a4, a5, a6⟩
    unfold syncProcessName
    rw [if_neg hne]
    set A := (if hasSlash entry.1 then
        (ancestorPaths entry.1).foldl (syncParentStep lm) (acc.1, acc.2)
      else (acc.1, acc.2)) with hAdef
    rcases gcreate_labels_ext A.1.gmail entry.1 with ⟨ext2, b1, b2⟩
    have hcre_tags : (A.1.gmail.createLabel entry.1).1.tags = A.1.gmail.tags :=
      gcreate_tags _ _
    have hcre_ev : addedToSheetOf (A.1.gmail.createLabel entry.1).2 = [] := by
      cases hh : A.1.gmail.hasName entry.1
      · rw [gcreate_events_of_not_hasName hh]
        rfl
      · rw [gcreate_events_of_hasName hh]
        rfl
    have hname_iff : ∀ x, (A.1.gmail.createLabel entry.1).1.hasName x = true ↔
        acc.1.gmail.hasName x = true ∨ x ∈ entryCalls lm entry.1 := by
      intro x
      rw [gcreate_hasName_iff, a6 x, hcalls]
      constructor
      · rintro ((h | h) | rfl)
        · exact Or.inl h
        · exact Or.inr (List.mem_append.2 (Or.inl h))
        · exact Or.inr (List.mem_append.2 (Or.inr (by simp)))
      · rintro (h | h)
        · exact Or.inl (Or.inl h)
        · rcases List.mem_append.1 h with h' | h'
          · exact Or.inl (Or.inr h')
          · exact Or.inr (by simpa using h')
    refine ⟨ext1 ++ ext2, ?_⟩
    rcases hq : getLabelId ok (A.1.gmail.createLabel entry.1).1 entry.1 with _ | nid
    · simp only [hq]
      refine ⟨?_, ?_, ?_, ?_, ?_, hname_iff⟩
      · rw [b1, a1, List.append_assoc]
      · intro l hl
        rcases List.mem_append.1 hl with hl' | hl'
        · have := a2 l hl'
          rw [hcalls]
          exact ⟨this.1, List.mem_append.2 (Or.inl this.2.1), this.2.2⟩
        · have := b2 l hl'
          rw [hcalls]
          exact ⟨this.1, List.mem_append.2 (Or.inr (by simp [this.2.1])), this.2.2⟩
      · rw [a3]
      · rw [hcre_tags, a4]
      · rw [addedToSheetOf_append, a5, hcre_ev, List.append_nil]
    · simp only [hq]
      refine ⟨?_, ?_, ?_, ?_, ?_, ?_⟩
      · rw [setIdCell_gmail, b1, a1, List.append_assoc]
      · intro l hl
        rcases List.mem_append.1 hl with hl' | hl'
        · have := a2 l hl'
          rw [hcalls]
          exact ⟨this.1, List.mem_append.2 (Or.inl this.2.1), this.2.2⟩
        · have := b2 l hl'
          rw [hcalls]
          exact ⟨this.1, List.mem_append.2 (Or.inr (by simp [this.2.1])), this.2.2⟩
      · rw [setIdCell_map_name, a3]
      · rw [setIdCell_gmail, hcre_tags, a4]
      · rw [addedToSheetOf_append, a5, hcre_ev, List.append_nil]
      · intro x
        rw [setIdCell_gmail]
        exact hname_iff x

theorem condParents_noop (lm : List (String × String)) (b : Bool) (ps : List String)
    (a : St × List Ev)
    (h : b = true → ∀ p ∈ ps, jsTruthy (objGet lm p) = false →
      a.1.gmail.hasName p = true) :
    (if b then ps.foldl (syncParentStep lm) a else a) = a := by
  cases b
  · rfl
  · simpa using spfold_noop lm ps a (h rfl)

theorem spn_noop (ok : Bool) (lm : List (String × String)) (acc : St × List Ev)
    (entry : String × Nat)
    (h : ∀ p ∈ entryCalls lm entry.1, acc.1.gmail.hasName p = true) :
    (syncProcessName ok lm acc entry).1.gmail = acc.1.gmail ∧
    (syncProcessName ok lm acc entry).2 = acc.2 := by
  by_cases ht : jsTruthy (objGet lm entry.1)
  · unfold syncProcessName
    rw [if_pos ht]
    exact ⟨by trivial, by trivial⟩
  · have hne : ¬ (jsTruthy (objGet lm entry.1) = true) := by simpa using ht
    have hn : acc.1.gmail.hasName entry.1 = true :=
      h entry.1 (self_mem_entryCalls (by simpa using ht))
    have hanc : hasSlash entry.1 = true → ∀ p ∈ ancestorPaths entry.1,
        jsTruthy (objGet lm p) = false → acc.1.gmail.hasName p = true := by
      intro hs p hp hf
      apply h
      unfold entryCalls
      rw [if_neg hne, hs]
      exact List.mem_append.2 (Or.inl (by
        simp only [if_pos rfl]
        exact List.mem_filter.2 ⟨hp, by simp [hf]⟩))
    unfold syncProcessName
    rw [if_neg hne]
    rw [condParents_noop lm (hasSlash entry.1) (ancestorPaths entry.1)
      (acc.1, acc.2) hanc]
    simp only [gcreate_of_hasName hn]
    rcases hq : getLabelId ok acc.1.gmail entry.1 with _ | nid
    · simp only [hq]
      constructor <;> simp
    · simp only [hq]
      constructor
      · simp [setIdCell_gmail]
      · simp

theorem step2_char (ok : Bool) (lm : List (String × String))
    (entries : List (String × Nat)) :
    ∀ (acc : St × List Ev),
      ∃ ext, (entries.foldl (syncProcessName ok lm) acc).1.gmail.labels =
          acc.1.gmail.labels ++ ext ∧
        (∀ l ∈ ext, l.ltype = LabelType.user ∧ l.name ∈ syncCalls lm entries ∧
          l.id ≠ "") ∧
        (entries.foldl (syncProcessName ok lm) acc).1.sheet.map (fun r => r.nameCell) =
          acc.1.sheet.map (fun r => r.nameCell) ∧
        (entries.foldl (syncProcessName ok lm) acc).1.gmail.tags =
          acc.1.gmail.tags ∧
        addedToSheetOf (entries.foldl (syncProcessName ok lm) acc).2 =
          addedToSheetOf acc.2 ∧
        (∀ x, (entries.foldl (syncProcessName ok lm) acc).1.gmail.hasName x = true ↔
          acc.1.gmail.hasName x = true ∨ x ∈ syncCalls lm entries) := by
  induction entries with
  | nil =>
    intro acc
    exact ⟨[], by simp, by simp, rfl, rfl, rfl, by simp [syncCalls]⟩
  | cons e es ih =>
    intro acc
    rcases spn_char ok lm acc e with ⟨e0, h1, h2, h3, h4, h5, h6⟩
    rcases ih (syncProcessName ok lm acc e) with ⟨ext, g1, g2, g3, g4, g5, g6⟩
    refine ⟨e0 ++ ext, ?_, ?_, ?_, ?_, ?_, ?_⟩
    · rw [List.foldl_cons, g1, h1, List.append_assoc]
    · intro l hl
      rw [syncCalls_cons]
      rcases List.mem_append.1 hl with hl' | hl'
      · exact ⟨(h2 l hl').1, List.mem_append.2 (Or.inl (h2 l hl').2.1),
          (h2 l hl').2.2⟩
      · exact ⟨(g2 l hl').1, List.mem_append.2 (Or.inr (g2 l hl').2.1),
          (g2 l hl').2.2⟩
    · rw [List.foldl_cons, g3, h3]
    · rw [List.foldl_cons, g4, h4]
    · rw [List.foldl_cons, g5, h5]
    · intro x
      rw [List.foldl_cons, g6 x, h6 x, syncCalls_cons]
      constructor
      · rintro ((h | h) | h)
        · exact Or.inl h
        · exact Or.inr (List.mem_append.2 (Or.inl h))
        · exact Or.inr (List.mem_append.2 (Or.inr h))
      · rintro (h | h)
        · exact Or.inl (Or.inl h)
        · rcases List.mem_append.1 h with h' | h'
          · exact Or.inl (Or.inr h')
          · exact Or.inr h'

theorem step2_noop (ok : Bool) (lm : List (String × String))
    (entries : List (String × Nat)) :
    ∀ (acc : St × List Ev),
      (∀ p ∈ syncCalls lm entries, acc.1.gmail.hasName p = true) →
      (entries.foldl (syncProcessName ok lm) acc).1.gmail = acc.1.gmail ∧
      (entries.foldl (syncProcessName ok lm) acc).2 = acc.2 := by
  induction entries with
  | nil => intro acc _; exact ⟨rfl, rfl⟩
  | cons e es ih =>
    intro acc h
    have h1 : ∀ p ∈ entryCalls lm e.1, acc.1.gmail.hasName p = true := by
      intro p hp
      exact h p (by rw [syncCalls_cons]; exact List.mem_append.2 (Or.inl hp))
    rcases spn_noop ok lm acc e h1 with ⟨hg, hev⟩
    have h2 : ∀ p ∈ syncCalls lm es,
        (syncProcessName ok lm acc e).1.gmail.hasName p = true := by
      intro p hp
      rw [hg]
      exact h p (by rw [syncCalls_cons]; exact List.mem_append.2 (Or.inr hp))
    rcases ih (syncProcessName ok lm acc e) h2 with ⟨ig, iev⟩
    rw [List.foldl_cons]
    exact ⟨ig.trans hg, iev.trans hev⟩

theorem step3_char (sm : List (String × Nat)) (ls : List RemoteLabel) :
    ∀ (acc : St × List Ev),
      (ls.foldl (syncStep3 sm) acc).1.gmail = acc.1.gmail ∧
      (ls.foldl (syncStep3 sm) acc).1.sheet = acc.1.sheet ++
        (ls.filter (fun l => !(skipLabel l) && !((objGet sm l.name).isSome))).map
          (fun l => (⟨l.id, l.name⟩ : SheetRow)) ∧
      (ls.foldl (syncStep3 sm) acc).2 = acc.2 ++
        (ls.filter (fun l => !(skipLabel l) && !((objGet sm l.name).isSome))).map
          (fun l => Ev.appendRow l.name) := by
  induction ls with
  | nil => intro acc; exact ⟨rfl, by simp, by simp⟩
  | cons l ls ih =>
    intro acc
    by_cases hskip : skipLabel l = true
    · have hstep : syncStep3 sm acc l = acc := by
        unfold syncStep3
        rw [if_pos hskip]
      rw [List.foldl_cons, hstep, List.filter_cons, if_neg (by simp [hskip])]
      exact ih acc
    · have hskip' : skipLabel l = false := by simpa using hskip
      by_cases hmem : (objGet sm l.name).isSome = true
      · have hstep : syncStep3 sm acc l = acc := by
          unfold syncStep3
          rw [if_neg (by simp [hskip']), if_pos hmem]
        rw [List.foldl_cons, hstep, List.filter_cons,
          if_neg (by simp [hskip', hmem])]
        exact ih acc
      · have hmem' : (objGet sm l.name).isSome = false := by simpa using hmem
        have hstep : syncStep3 sm acc l =
            ({ acc.1 with sheet := acc.1.sheet ++ [⟨l.id, l.name⟩] },
             acc.2 ++ [Ev.appendRow l.name]) := by
          unfold syncStep3
          rw [if_neg (by simp [hskip']), if_neg (by simp [hmem'])]
        rw [List.foldl_cons, hstep, List.filter_cons,
          if_pos (by simp [hskip', hmem'])]
        rcases ih ({ acc.1 with sheet := acc.1.sheet ++ [⟨l.id, l.name⟩] },
          acc.2 ++ [Ev.appendRow l.name]) with ⟨i1, i2, i3⟩
        refine ⟨i1, ?_, ?_⟩
        · rw [i2]
          simp [List.append_assoc]
        · rw [i3]
          simp [List.append_assoc]

theorem syncAllLabels_true_eq (s : St) :
    syncAllLabels true s =
      (((sheetLabelMapOf s.sheet).foldl
          (syncProcessName true (getLabelMap true s.gmail)) (s, [])).1.gmail.labels).foldl
        (syncStep3 (sheetLabelMapOf s.sheet))
        ((sheetLabelMapOf s.sheet).foldl
          (syncProcessName true (getLabelMap true s.gmail)) (s, [])) := by
  unfold syncAllLabels
  simp [listMe]

theorem syncAllLabels_false_eq (s : St) :
    syncAllLabels false s =
      (sheetLabelMapOf s.sheet).foldl
        (syncProcessName false (getLabelMap false s.gmail)) (s, []) := by
  unfold syncAllLabels
  simp [listMe]

theorem objGet_isSome_iff_mem_keys {α : Type} (m : List (String × α)) (k : String) :
    (objGet m k).isSome = true ↔ k ∈ m.map Prod.fst := by
  induction m with
  | nil => simp [objGet]
  | cons p ps ih =>
    unfold objGet
    by_cases hp : p.1 = k
    · rw [if_pos hp]
      simp only [Option.isSome_some]
      constructor
      · intro _
        exact List.mem_map.2 ⟨p, List.mem_cons_self _ _, hp⟩
      · intro _
        trivial
    · rw [if_neg hp, ih]
      constructor
      · intro h
        rcases List.mem_map.1 h with ⟨q, hq, he⟩
        exact List.mem_map.2 ⟨q, List.mem_cons_of_mem _ hq, he⟩
      · intro h
        rcases List.mem_map.1 h with ⟨q, hq, he⟩
        rcases List.mem_cons.1 hq with rfl | hq'
        · exact absurd he hp
        · exact List.mem_map.2 ⟨q, hq', he⟩

theorem entry_name_mem_NE {sheet : List SheetRow} {e : String × Nat}
    (he : e ∈ sheetLabelMapOf sheet) : e.1 ∈ sheetNamesNE sheet := by
  have h : (objGet (sheetLabelMapOf sheet) e.1).isSome = true := by
    rw [objGet_isSome_iff_mem_keys]
    exact List.mem_map.2 ⟨e, he, rfl⟩
  exact sheetLabelMapOf_isSome.1 h

theorem NE_mem_entries {sheet : List SheetRow} {x : String}
    (hx : x ∈ sheetNamesNE sheet) : ∃ j, (x, j) ∈ sheetLabelMapOf sheet := by
  have h : (objGet (sheetLabelMapOf sheet) x).isSome = true :=
    sheetLabelMapOf_isSome.2 hx
  rw [objGet_isSome_iff_mem_keys] at h
  rcases List.mem_map.1 h with ⟨e, he, hfst⟩
  rcases e with ⟨a, b⟩
  have : a = x := hfst
  subst this
  exact ⟨b, he⟩

theorem mem_ancFold (g : GmailState) (ns : List String) (x : String) :
    x ∈ ns.foldr (fun n acc =>
        (if !(g.hasName n) && hasSlash n then ancestorPaths n else []) ++ acc) [] ↔
      ∃ n ∈ ns, g.hasName n = false ∧ hasSlash n = true ∧ x ∈ ancestorPaths n := by
  induction ns with
  | nil => simp
  | cons m ms ih =>
    simp only [List.foldr_cons, List.mem_append, ih]
    constructor
    · rintro (h | ⟨n, hn, h1, h2, h3⟩)
      · by_cases hc : (!(g.hasName m) && hasSlash m) = true
        · rw [if_pos hc] at h
          have hc2 : (!(g.hasName m)) = true ∧ hasSlash m = true := by simpa using hc
          exact ⟨m, List.mem_cons_self _ _, by simpa using hc2.1, hc2.2, h⟩
        · rw [if_neg hc] at h
          exact absurd h (by simp)
      · exact ⟨n, List.mem_cons_of_mem _ hn, h1, h2, h3⟩
    · rintro ⟨n, hn, h1, h2, h3⟩
      rcases List.mem_cons.1 hn with rfl | hn'
      · left
        rw [if_pos (by simp [h1, h2])]
        exact h3
      · right
        exact ⟨n, hn', h1, h2, h3⟩

theorem mem_syncAncestors {s : St} {x : String} :
    x ∈ syncAncestors s ↔ ∃ n ∈ sheetNamesNE s.sheet,
      s.gmail.hasName n = false ∧ hasSlash n = true ∧ x ∈ ancestorPaths n :=
  mem_ancFold s.gmail (sheetNamesNE s.sheet) x

theorem sheetWfB_iff {sheet : List SheetRow} :
    sheetWfB sheet = true ↔
      ∀ r ∈ sheet, ∀ p ∈ ancestorPaths r.nameCell, p ≠ "" := by
  unfold sheetWfB
  rw [List.all_eq_true]
  constructor
  · intro h r hr p hp
    have := h r hr
    rw [List.all_eq_true] at this
    simpa using this p hp
  · intro h r hr
    rw [List.all_eq_true]
    intro p hp
    simpa using h r hr p hp

theorem syncAncestors_ne_empty {s : St} (hsw : sheetWfB s.sheet = true)
    {x : String} (hx : x ∈ syncAncestors s) : x ≠ "" := by
  rcases mem_syncAncestors.1 hx with ⟨n, hne, _, _, hanc⟩
  rcases mem_sheetNamesNE.1 hne with ⟨⟨r, hr, hname⟩, _⟩
  have := sheetWfB_iff.1 hsw r hr x (by rw [hname]; exact hanc)
  exact this

theorem syncCalls_sub {s : St} (hwf : gmailWfB s.gmail = true) {x : String}
    (hx : x ∈ syncCalls (getLabelMap true s.gmail) (sheetLabelMapOf s.sheet)) :
    s.gmail.hasName x = false ∧
      (x ∈ sheetNamesNE s.sheet ∨ x ∈ syncAncestors s) := by
  rcases mem_syncCalls.1 hx with ⟨e, he, hec⟩
  unfold entryCalls at hec
  by_cases ht : jsTruthy (objGet (getLabelMap true s.gmail) e.1) = true
  · rw [if_pos ht] at hec
    exact absurd hec (by simp)
  · rw [if_neg ht] at hec
    have hhe : s.gmail.hasName e.1 = false := by
      rw [← jsTruthy_getLabelMap hwf]
      simpa using ht
    rcases List.mem_append.1 hec with h' | h'
    · by_cases hs : hasSlash e.1 = true
      · rw [if_pos hs] at h'
        rcases List.mem_filter.1 h' with ⟨hanc, hcond⟩
        have hxf : s.gmail.hasName x = false := by
          rw [← jsTruthy_getLabelMap hwf]
          simpa using hcond
        exact ⟨hxf,
          Or.inr (mem_syncAncestors.2 ⟨e.1, entry_name_mem_NE he, hhe, hs, hanc⟩)⟩
      · rw [if_neg hs] at h'
        exact absurd h' (by simp)
    · have hxe : x = e.1 := by simpa using h'
      subst hxe
      exact ⟨hhe, Or.inl (entry_name_mem_NE he)⟩

theorem syncCalls_sup_NE {s : St} (hwf : gmailWfB s.gmail = true) {x : String}
    (hx : x ∈ sheetNamesNE s.sheet) (hn : s.gmail.hasName x = false) :
    x ∈ syncCalls (getLabelMap true s.gmail) (sheetLabelMapOf s.sheet) := by
  rcases NE_mem_entries hx with ⟨j, hj⟩
  refine mem_syncCalls.2 ⟨(x, j), hj, ?_⟩
  exact self_mem_entryCalls (by rw [jsTruthy_getLabelMap hwf]; exact hn)

theorem syncCalls_sup_anc {s : St} (hwf : gmailWfB s.gmail = true) {x : String}
    (hx : x ∈ syncAncestors s) (hn : s.gmail.hasName x = false) :
    x ∈ syncCalls (getLabelMap true s.gmail) (sheetLabelMapOf s.sheet) := by
  rcases mem_syncAncestors.1 hx with ⟨n, hne, hn0, hs0, hanc⟩
  rcases NE_mem_entries hne with ⟨j, hj⟩
  refine mem_syncCalls.2 ⟨(n, j), hj, ?_⟩
  unfold entryCalls
  rw [if_neg (show ¬ (jsTruthy (objGet (getLabelMap true s.gmail) n) = true) by
    rw [jsTruthy_getLabelMap hwf]
    simp [hn0])]
  refine List.mem_append.2 (Or.inl ?_)
  rw [if_pos hs0]
  refine List.mem_filter.2 ⟨hanc, ?_⟩
  rw [jsTruthy_getLabelMap hwf, hn]
  rfl

theorem nameSkip_false_of_skipLabel_false {l : RemoteLabel}
    (h : skipLabel l = false) : nameSkip l.name = false := by
  unfold skipLabel at h
  cases hns : nameSkip l.name
  · rfl
  · rw [hns] at h
    simp at h

/-- C7: when the remote listing fails or returns no usable payload, getLabelMap
degrades instead of raising: it returns the empty map, every getLabelId lookup
then yields none (NotFound/null), and a reconciliation pass still runs to
completion treating the remote set as empty — in particular its remote→local
step appends no rows. -/
theorem claim_C7 (g : GmailState) (nm : String) (s : St) :
    getLabelMap false g = [] ∧
    getLabelId false g nm = none ∧
    addedToSheetOf (syncAllLabels false s).2 = [] := by
  refine ⟨rfl, rfl, ?_⟩
  rw [syncAllLabels_false_eq]
  rcases step2_char false (getLabelMap false s.gmail) (sheetLabelMapOf s.sheet)
    (s, []) with ⟨_, _, _, _, _, h5, _⟩
  rw [h5]
  rfl

/-- C8 amended: the reconciliation's remote→local step never appends a
system-reserved name to the local store, and deletion of a label whose handle
lookup fails (as it does for system labels) only clears the id cell leaving the
remote store untouched; however, contrary to the original claim, name→id
lookups do include system labels — getLabelMap maps every listed label
regardless of type. -/
theorem claim_C8_amended :
    (∀ (s : St) (n : String), Ev.appendRow n ∈ (syncAllLabels true s).2 →
      nameSkip n = false) ∧
    (∀ (g : GmailState) (l : RemoteLabel), l ∈ g.labels →
      (objGet (getLabelMap true g) l.name).isSome = true) ∧
    (∀ (s : St) (row : Nat) (n lid : String),
      getLabelId true s.gmail n = some lid →
      s.gmail.getUserLabelByName n = none →
      deleteLabel true s row n = (clearIdCell s row, []) ∧
      (clearIdCell s row).gmail = s.gmail) := by
  refine ⟨?_, ?_, ?_⟩
  · intro s n hev
    rw [syncAllLabels_true_eq] at hev
    rcases step3_char (sheetLabelMapOf s.sheet)
      ((sheetLabelMapOf s.sheet).foldl
        (syncProcessName true (getLabelMap true s.gmail)) (s, [])).1.gmail.labels
      ((sheetLabelMapOf s.sheet).foldl
        (syncProcessName true (getLabelMap true s.gmail)) (s, [])) with ⟨_, _, h3⟩
    rw [h3] at hev
    rcases List.mem_append.1 hev with hev' | hev'
    · rcases step2_char true (getLabelMap true s.gmail) (sheetLabelMapOf s.sheet)
        (s, []) with ⟨_, _, _, _, _, h5, _⟩
      have hmem : n ∈ addedToSheetOf
          ((sheetLabelMapOf s.sheet).foldl
            (syncProcessName true (getLabelMap true s.gmail)) (s, [])).2 := by
        unfold addedToSheetOf
        exact List.mem_filterMap.2 ⟨Ev.appendRow n, hev', rfl⟩
      rw [h5] at hmem
      exact absurd hmem (by simp [addedToSheetOf])
    · rcases List.mem_map.1 hev' with ⟨l, hl, he⟩
      have hn : l.name = n := by
        injection he
      rcases List.mem_filter.1 hl with ⟨_, hcond⟩
      have hskip : skipLabel l = false := by
        simp only [Bool.and_eq_true, Bool.not_eq_true'] at hcond
        exact hcond.1
      rw [← hn]
      exact nameSkip_false_of_skipLabel_false hskip
  · intro g l hl
    rw [getLabelMap_true]
    exact foldIns_isSome g.labels [] l.name
      (Or.inl (List.mem_map.2 ⟨l, hl, rfl⟩))
  · intro s row n lid hid huser
    constructor
    · simp only [deleteLabel, hid, huser]
    · rfl

/-- C8 witness: a store holding only the system label INBOX — a delete intent
for the row named INBOX (whose handle lookup fails) merely clears the row's id
cell and leaves the remote store unchanged. -/
theorem claim_C8_amended_witness :
    (getLabelId true ⟨[⟨"S1", "INBOX", LabelType.system⟩], [], 0⟩ "INBOX" =
        some "S1" ∧
      GmailState.getUserLabelByName
        ⟨[⟨"S1", "INBOX", LabelType.system⟩], [], 0⟩ "INBOX" = none) ∧
    (deleteLabel true
        ⟨[⟨"S1", "INBOX"⟩], ⟨[⟨"S1", "INBOX", LabelType.system⟩], [], 0⟩⟩
        0 "INBOX" =
      (clearIdCell
        ⟨[⟨"S1", "INBOX"⟩], ⟨[⟨"S1", "INBOX", LabelType.system⟩], [], 0⟩⟩ 0,
       []) ∧
      (clearIdCell
        ⟨[⟨"S1", "INBOX"⟩], ⟨[⟨"S1", "INBOX", LabelType.system⟩], [], 0⟩⟩
        0).gmail =
        ⟨[⟨"S1", "INBOX", LabelType.system⟩], [], 0⟩) :=
  ⟨⟨by decide, by decide⟩,
   claim_C8_amended.2.2
     ⟨[⟨"S1", "INBOX"⟩], ⟨[⟨"S1", "INBOX", LabelType.system⟩], [], 0⟩⟩
     0 "INBOX" "S1" (by decide) (by decide)⟩

theorem sheetNamesNE_append (a b : List SheetRow) :
    sheetNamesNE (a ++ b) = sheetNamesNE a ++ sheetNamesNE b := by
  simp [sheetNamesNE, List.filter_append]

theorem sheetNamesNE_eq_of_map_eq {a b : List SheetRow}
    (h : a.map (fun r => r.nameCell) = b.map (fun r => r.nameCell)) :
    sheetNamesNE a = sheetNamesNE b := by
  unfold sheetNamesNE
  rw [h]

theorem addedToSheetOf_appendRows (ls : List RemoteLabel) :
    addedToSheetOf (ls.map (fun l => Ev.appendRow l.name)) =
      ls.map (fun l => l.name) := by
  induction ls with
  | nil => rfl
  | cons l ls ih =>
    simp only [List.map_cons]
    unfold addedToSheetOf at ih ⊢
    rw [List.filterMap_cons]
    simp only [ih]

theorem rowsMap_name (ls : List RemoteLabel) :
    (ls.map (fun l => (⟨l.id, l.name⟩ : SheetRow))).map (fun r => r.nameCell) =
      ls.map (fun l => l.name) := by
  rw [List.map_map]
  rfl

theorem skipLabel_user {l : RemoteLabel} (h : l.ltype = LabelType.user)
    (hn : nameSkip l.name = false) : skipLabel l = false := by
  unfold skipLabel
  rw [h, hn]
  rfl

/-- Full characterization of one reconciliation pass on a well-formed state:
conservativity of both stores plus the exact post-state name sets. -/
theorem sync_run_char (s : St)
    (hwf : gmailWfB s.gmail = true) (hsw : sheetWfB s.sheet = true) :
    (∃ created, (syncAllLabels true s).1.gmail.labels =
      s.gmail.labels ++ created) ∧
    ((syncAllLabels true s).1.sheet.map (fun r => r.nameCell) =
      s.sheet.map (fun r => r.nameCell) ++
        addedToSheetOf (syncAllLabels true s).2) ∧
    (∀ n ∈ addedToSheetOf (syncAllLabels true s).2, nameSkip n = false) ∧
    (∀ x, x ∈ gmailNames (syncAllLabels true s).1.gmail ↔
      x ∈ gmailNames s.gmail ∨ x ∈ sheetNamesNE s.sheet ∨ x ∈ syncAncestors s) ∧
    (∀ x, x ∈ sheetNamesNE (syncAllLabels true s).1.sheet ↔
      x ∈ sheetNamesNE s.sheet ∨
      (∃ l ∈ s.gmail.labels, l.name = x ∧ skipLabel l = false) ∨
      (x ∈ syncAncestors s ∧ s.gmail.hasName x = false ∧ nameSkip x = false)) := by
  rcases step2_char true (getLabelMap true s.gmail) (sheetLabelMapOf s.sheet)
    (s, []) with ⟨ext, g1, g2, g3, g4, g5, g6⟩
  rcases step3_char (sheetLabelMapOf s.sheet)
    ((sheetLabelMapOf s.sheet).foldl
      (syncProcessName true (getLabelMap true s.gmail)) (s, [])).1.gmail.labels
    ((sheetLabelMapOf s.sheet).foldl
      (syncProcessName true (getLabelMap true s.gmail)) (s, [])) with ⟨t1, t2, t3⟩
  have g5' : addedToSheetOf
      ((sheetLabelMapOf s.sheet).foldl
        (syncProcessName true (getLabelMap true s.gmail)) (s, [])).2 = [] := by
    rw [g5]
    rfl
  refine ⟨?_, ?_, ?_, ?_, ?_⟩
  · refine ⟨ext, ?_⟩
    rw [syncAllLabels_true_eq]
    have : ((((sheetLabelMapOf s.sheet).foldl
        (syncProcessName true (getLabelMap true s.gmail)) (s, [])).1.gmail.labels).foldl
        (syncStep3 (sheetLabelMapOf s.sheet))
        ((sheetLabelMapOf s.sheet).foldl
          (syncProcessName true (getLabelMap true s.gmail)) (s, []))).1.gmail =
        ((sheetLabelMapOf s.sheet).foldl
          (syncProcessName true (getLabelMap true s.gmail)) (s, [])).1.gmail := t1
    rw [this, g1]
  · rw [syncAllLabels_true_eq, t2, t3, List.map_append, g3, addedToSheetOf_append,
      g5', rowsMap_name, addedToSheetOf_appendRows]
    rfl
  · intro n hn
    rw [syncAllLabels_true_eq, t3, addedToSheetOf_append, g5',
      addedToSheetOf_appendRows, List.nil_append] at hn
    rcases List.mem_map.1 hn with ⟨l, hl, hname⟩
    rcases List.mem_filter.1 hl with ⟨_, hcond⟩
    have hskip : skipLabel l = false := by
      simp only [Bool.and_eq_true, Bool.not_eq_true'] at hcond
      exact hcond.1
    rw [← hname]
    exact nameSkip_false_of_skipLabel_false hskip
  · intro x
    rw [syncAllLabels_true_eq]
    have hmid : (((((sheetLabelMapOf s.sheet).foldl
        (syncProcessName true (getLabelMap true s.gmail)) (s, [])).1.gmail.labels).foldl
        (syncStep3 (sheetLabelMapOf s.sheet))
        ((sheetLabelMapOf s.sheet).foldl
          (syncProcessName true (getLabelMap true s.gmail)) (s, []))).1.gmail) =
        ((sheetLabelMapOf s.sheet).foldl
          (syncProcessName true (getLabelMap true s.gmail)) (s, [])).1.gmail := t1
    rw [hmid]
    rw [← hasName_iff, ← hasName_iff]
    rw [g6 x]
    constructor
    · rintro (h | h)
      · exact Or.inl h
      · rcases syncCalls_sub hwf h with ⟨_, hNE | hanc⟩
        · exact Or.inr (Or.inl hNE)
        · exact Or.inr (Or.inr hanc)
    · rintro (h | h | h)
      · exact Or.inl h
      · by_cases hh : s.gmail.hasName x = true
        · exact Or.inl hh
        · exact Or.inr (syncCalls_sup_NE hwf h (by simpa using hh))
      · by_cases hh : s.gmail.hasName x = true
        · exact Or.inl hh
        · exact Or.inr (syncCalls_sup_anc hwf h (by simpa using hh))
  · intro x
    rw [syncAllLabels_true_eq, t2, sheetNamesNE_append,
      sheetNamesNE_eq_of_map_eq g3]
    rw [List.mem_append]
    constructor
    · rintro (h | h)
      · exact Or.inl h
      · rcases mem_sheetNamesNE.1 h with ⟨⟨r, hr, hname⟩, hne⟩
        rcases List.mem_map.1 hr with ⟨l, hl, hrow⟩
        have hlname : l.name = x := by rw [← hname, ← hrow]
        rcases List.mem_filter.1 hl with ⟨hmem, hcond⟩
        simp only [Bool.and_eq_true, Bool.not_eq_true'] at hcond
        rw [g1] at hmem
        rcases List.mem_append.1 hmem with hm | hm
        · exact Or.inr (Or.inl ⟨l, hm, hlname, hcond.1⟩)
        · have hprops := g2 l hm
          rcases syncCalls_sub hwf hprops.2.1 with ⟨hhx0, hNE | hanc⟩
          · have hiso : (objGet (sheetLabelMapOf s.sheet) l.name).isSome = true :=
              sheetLabelMapOf_isSome.2 hNE
            rw [hcond.2] at hiso
            exact absurd hiso (by simp)
          · refine Or.inr (Or.inr ⟨by rw [← hlname]; exact hanc,
              by rw [← hlname]; exact hhx0, ?_⟩)
            rw [← hlname]
            exact nameSkip_false_of_skipLabel_false hcond.1
    · rintro (h | h | h)
      · exact Or.inl h
      · rcases h with ⟨l, hl, hname, hskip⟩
        by_cases hx : x ∈ sheetNamesNE s.sheet
        · exact Or.inl hx
        · refine Or.inr ?_
          have hiso : (objGet (sheetLabelMapOf s.sheet) l.name).isSome = false := by
            cases hq : (objGet (sheetLabelMapOf s.sheet) l.name).isSome
            · rfl
            · rw [hname] at hq
              exact absurd (sheetLabelMapOf_isSome.1 hq) hx
          have hmem : l ∈ (((sheetLabelMapOf s.sheet).foldl
              (syncProcessName true (getLabelMap true s.gmail)) (s, [])).1.gmail.labels) := by
            rw [g1]
            exact List.mem_append.2 (Or.inl hl)
          have hfil : l ∈ (((sheetLabelMapOf s.sheet).foldl
              (syncProcessName true (getLabelMap true s.gmail)) (s, [])).1.gmail.labels).filter
              (fun l => !(skipLabel l) && !((objGet (sheetLabelMapOf s.sheet) l.name).isSome)) :=
            List.mem_filter.2 ⟨hmem, by simp [hskip, hiso]⟩
          refine mem_sheetNamesNE.2 ⟨⟨⟨l.id, l.name⟩, List.mem_map.2 ⟨l, hfil, rfl⟩, hname⟩, ?_⟩
          rw [← hname]
          exact (gmailWfB_iff.1 hwf l hl).2
      · rcases h with ⟨hanc, hhx, hns⟩
        have hcalls : x ∈ syncCalls (getLabelMap true s.gmail) (sheetLabelMapOf s.sheet) :=
          syncCalls_sup_anc hwf hanc hhx
        have hpost : ((sheetLabelMapOf s.sheet).foldl
            (syncProcessName true (getLabelMap true s.gmail)) (s, [])).1.gmail.hasName x = true :=
          (g6 x).2 (Or.inr hcalls)
        rcases List.mem_map.1 (hasName_iff.1 hpost) with ⟨l, hl, hlname⟩
        have hluser : l.ltype = LabelType.user := by
          rw [g1] at hl
          rcases List.mem_append.1 hl with hm | hm
          · exact absurd (hasName_iff.2 (List.mem_map.2 ⟨l, hm, hlname⟩))
              (by rw [hhx]; simp)
          · exact (g2 l hm).1
        have hskip : skipLabel l = false :=
          skipLabel_user hluser (by rw [hlname]; exact hns)
        by_cases hx : x ∈ sheetNamesNE s.sheet
        · exact Or.inl hx
        · refine Or.inr ?_
          have hiso : (objGet (sheetLabelMapOf s.sheet) l.name).isSome = false := by
            cases hq : (objGet (sheetLabelMapOf s.sheet) l.name).isSome
            · rfl
            · rw [hlname] at hq
              exact absurd (sheetLabelMapOf_isSome.1 hq) hx
          have hfil : l ∈ (((sheetLabelMapOf s.sheet).foldl
              (syncProcessName true (getLabelMap true s.gmail)) (s, [])).1.gmail.labels).filter
              (fun l => !(skipLabel l) && !((objGet (sheetLabelMapOf s.sheet) l.name).isSome)) :=
            List.mem_filter.2 ⟨hl, by simp [hskip, hiso]⟩
          refine mem_sheetNamesNE.2 ⟨⟨⟨l.id, l.name⟩, List.mem_map.2 ⟨l, hfil, rfl⟩, hlname⟩, ?_⟩
          exact syncAncestors_ne_empty hsw hanc

/-- C1 amended: reconciliation is conservative — it never removes a local row
and never deletes or renames a remote label (the pre-state labels are a prefix
of the post-state label list, and the pre-state name cells a prefix of the
post-state name cells), and no system-reserved name is appended to the local
store; but the post-state name set of each store is the union of the pre-state
local and remote name sets EXTENDED by the proper ancestor paths of nested
local names absent remotely — on the local side by those of them that are
absent remotely and not system-named. -/
theorem claim_C1_amended (s : St)
    (hwf : gmailWfB s.gmail = true) (hsw : sheetWfB s.sheet = true) :
    (∃ created, (syncAllLabels true s).1.gmail.labels =
      s.gmail.labels ++ created) ∧
    ((syncAllLabels true s).1.sheet.map (fun r => r.nameCell) =
      s.sheet.map (fun r => r.nameCell) ++
        addedToSheetOf (syncAllLabels true s).2) ∧
    (∀ n ∈ addedToSheetOf (syncAllLabels true s).2, nameSkip n = false) ∧
    (∀ x, x ∈ gmailNames (syncAllLabels true s).1.gmail ↔
      x ∈ gmailNames s.gmail ∨ x ∈ sheetNamesNE s.sheet ∨ x ∈ syncAncestors s) ∧
    (∀ x, x ∈ sheetNamesNE (syncAllLabels true s).1.sheet ↔
      x ∈ sheetNamesNE s.sheet ∨
      (∃ l ∈ s.gmail.labels, l.name = x ∧ skipLabel l = false) ∨
      (x ∈ syncAncestors s ∧ s.gmail.hasName x = false ∧ nameSkip x = false)) :=
  sync_run_char s hwf hsw

/-- C1 amended witness: a sheet holding only the nested name "Work/Reports"
and a Gmail store holding only the user label "Personal" satisfies both
well-formedness side conditions, and running the reconciliation on it
verifies every conjunct of the amended union/conservativity property. -/
theorem claim_C1_amended_witness :
    gmailWfB (St.mk [SheetRow.mk "" "Work/Reports"]
      (GmailState.mk [RemoteLabel.mk "R1" "Personal" LabelType.user] [] 0)).gmail = true ∧
    sheetWfB (St.mk [SheetRow.mk "" "Work/Reports"]
      (GmailState.mk [RemoteLabel.mk "R1" "Personal" LabelType.user] [] 0)).sheet = true ∧
    ((∃ created, (syncAllLabels true (St.mk [SheetRow.mk "" "Work/Reports"]
        (GmailState.mk [RemoteLabel.mk "R1" "Personal" LabelType.user] [] 0))).1.gmail.labels =
      (St.mk [SheetRow.mk "" "Work/Reports"]
        (GmailState.mk [RemoteLabel.mk "R1" "Personal" LabelType.user] [] 0)).gmail.labels
        ++ created) ∧
    ((syncAllLabels true (St.mk [SheetRow.mk "" "Work/Reports"]
        (GmailState.mk [RemoteLabel.mk "R1" "Personal" LabelType.user] [] 0))).1.sheet.map
          (fun r => r.nameCell) =
      (St.mk [SheetRow.mk "" "Work/Reports"]
        (GmailState.mk [RemoteLabel.mk "R1" "Personal" LabelType.user] [] 0)).sheet.map
          (fun r => r.nameCell) ++
        addedToSheetOf (syncAllLabels true (St.mk [SheetRow.mk "" "Work/Reports"]
          (GmailState.mk [RemoteLabel.mk "R1" "Personal" LabelType.user] [] 0))).2) ∧
    (∀ n ∈ addedToSheetOf (syncAllLabels true (St.mk [SheetRow.mk "" "Work/Reports"]
        (GmailState.mk [RemoteLabel.mk "R1" "Personal" LabelType.user] [] 0))).2,
      nameSkip n = false) ∧
    (∀ x, x ∈ gmailNames (syncAllLabels true (St.mk [SheetRow.mk "" "Work/Reports"]
        (GmailState.mk [RemoteLabel.mk "R1" "Personal" LabelType.user] [] 0))).1.gmail ↔
      x ∈ gmailNames (St.mk [SheetRow.mk "" "Work/Reports"]
        (GmailState.mk [RemoteLabel.mk "R1" "Personal" LabelType.user] [] 0)).gmail ∨
      x ∈ sheetNamesNE (St.mk [SheetRow.mk "" "Work/Reports"]
        (GmailState.mk [RemoteLabel.mk "R1" "Personal" LabelType.user] [] 0)).sheet ∨
      x ∈ syncAncestors (St.mk [SheetRow.mk "" "Work/Reports"]
        (GmailState.mk [RemoteLabel.mk "R1" "Personal" LabelType.user] [] 0))) ∧
    (∀ x, x ∈ sheetNamesNE (syncAllLabels true (St.mk [SheetRow.mk "" "Work/Reports"]
        (GmailState.mk [RemoteLabel.mk "R1" "Personal" LabelType.user] [] 0))).1.sheet ↔
      x ∈ sheetNamesNE (St.mk [SheetRow.mk "" "Work/Reports"]
        (GmailState.mk [RemoteLabel.mk "R1" "Personal" LabelType.user] [] 0)).sheet ∨
      (∃ l ∈ (St.mk [SheetRow.mk "" "Work/Reports"]
        (GmailState.mk [RemoteLabel.mk "R1" "Personal" LabelType.user] [] 0)).gmail.labels,
        l.name = x ∧ skipLabel l = false) ∨
      (x ∈ syncAncestors (St.mk [SheetRow.mk "" "Work/Reports"]
        (GmailState.mk [RemoteLabel.mk "R1" "Personal" LabelType.user] [] 0)) ∧
       (St.mk [SheetRow.mk "" "Work/Reports"]
        (GmailState.mk [RemoteLabel.mk "R1" "Personal" LabelType.user] [] 0)).gmail.hasName x
         = false ∧
       nameSkip x = false))) :=
  ⟨by decide, by decide,
    claim_C1_amended (St.mk [SheetRow.mk "" "Work/Reports"]
      (GmailState.mk [RemoteLabel.mk "R1" "Personal" LabelType.user] [] 0))
      (by decide) (by decide)⟩

/-- The remote labels a pass appends are user labels with non-empty ids whose
names come from the pass's creation calls. -/
theorem syncAll_labels_char (s : St) :
    ∃ ext, (syncAllLabels true s).1.gmail.labels = s.gmail.labels ++ ext ∧
      ∀ l ∈ ext, l.ltype = LabelType.user ∧
        l.name ∈ syncCalls (getLabelMap true s.gmail) (sheetLabelMapOf s.sheet) ∧
        l.id ≠ "" := by
  rcases step2_char true (getLabelMap true s.gmail) (sheetLabelMapOf s.sheet)
    (s, []) with ⟨ext, g1, g2, _, _, _, _⟩
  rcases step3_char (sheetLabelMapOf s.sheet)
    ((sheetLabelMapOf s.sheet).foldl
      (syncProcessName true (getLabelMap true s.gmail)) (s, [])).1.gmail.labels
    ((sheetLabelMapOf s.sheet).foldl
      (syncProcessName true (getLabelMap true s.gmail)) (s, [])) with ⟨t1, _, _⟩
  refine ⟨ext, ?_, g2⟩
  rw [syncAllLabels_true_eq]
  have hmid : ((((sheetLabelMapOf s.sheet).foldl
      (syncProcessName true (getLabelMap true s.gmail)) (s, [])).1.gmail.labels).foldl
      (syncStep3 (sheetLabelMapOf s.sheet))
      ((sheetLabelMapOf s.sheet).foldl
        (syncProcessName true (getLabelMap true s.gmail)) (s, []))).1.gmail =
      ((sheetLabelMapOf s.sheet).foldl
        (syncProcessName true (getLabelMap true s.gmail)) (s, [])).1.gmail := t1
  rw [hmid, g1]

/-- A reconciliation pass preserves well-formedness of the remote store. -/
theorem syncAll_gmail_wf (s : St) (hwf : gmailWfB s.gmail = true)
    (hsw : sheetWfB s.sheet = true) :
    gmailWfB (syncAllLabels true s).1.gmail = true := by
  rcases syncAll_labels_char s with ⟨ext, hlab, hext⟩
  rw [gmailWfB_iff]
  intro l hl
  rw [hlab] at hl
  rcases List.mem_append.1 hl with hm | hm
  · exact gmailWfB_iff.1 hwf l hm
  · rcases hext l hm with ⟨_, hcalls, hid⟩
    refine ⟨hid, ?_⟩
    rcases syncCalls_sub hwf hcalls with ⟨_, hNE | hanc⟩
    · exact (mem_sheetNamesNE.1 hNE).2
    · exact syncAncestors_ne_empty hsw hanc

/-- C6: reconciliation is idempotent — running syncAllLabels a second time on
the post-state of a first run (the remote store unchanged in between) creates
no remote label and appends no local row: the second run's createdInGmail and
addedToSheet collections are both empty. -/
theorem claim_C6 (s : St)
    (hwf : gmailWfB s.gmail = true) (hsw : sheetWfB s.sheet = true) :
    createdInGmailOf (syncAllLabels true (syncAllLabels true s).1).2 = [] ∧
    addedToSheetOf (syncAllLabels true (syncAllLabels true s).1).2 = [] := by
  rcases sync_run_char s hwf hsw with ⟨_, _, _, hGiff, hSiff⟩
  rcases syncAll_labels_char s with ⟨ext, hlab, hext⟩
  have hwf1 : gmailWfB (syncAllLabels true s).1.gmail = true :=
    syncAll_gmail_wf s hwf hsw
  have F2 : ∀ x ∈ sheetNamesNE (syncAllLabels true s).1.sheet,
      (syncAllLabels true s).1.gmail.hasName x = true := by
    intro x hx
    rw [hasName_iff]
    rcases (hSiff x).1 hx with h | ⟨l, hl, hn, _⟩ | ⟨hanc, _, _⟩
    · exact (hGiff x).2 (Or.inr (Or.inl h))
    · exact (hGiff x).2 (Or.inl (by rw [← hn]; exact List.mem_map.2 ⟨l, hl, rfl⟩))
    · exact (hGiff x).2 (Or.inr (Or.inr hanc))
  have noCalls : ∀ p ∈ syncCalls
      (getLabelMap true (syncAllLabels true s).1.gmail)
      (sheetLabelMapOf (syncAllLabels true s).1.sheet),
      (syncAllLabels true s).1.gmail.hasName p = true := by
    intro p hp
    rcases @syncCalls_sub (syncAllLabels true s).1 hwf1 p hp with
      ⟨hfalse, hNE | hanc⟩
    · exact F2 p hNE
    · rcases mem_syncAncestors.1 hanc with ⟨n, hnNE, hnabs, _, _⟩
      rw [F2 n hnNE] at hnabs
      exact absurd hnabs (by simp)
  rcases step2_noop true (getLabelMap true (syncAllLabels true s).1.gmail)
      (sheetLabelMapOf (syncAllLabels true s).1.sheet)
      ((syncAllLabels true s).1, []) noCalls with ⟨hmidg, hmidev⟩
  have F3 : ((syncAllLabels true s).1.gmail.labels).filter
      (fun l => !(skipLabel l) &&
        !((objGet (sheetLabelMapOf (syncAllLabels true s).1.sheet) l.name).isSome))
      = [] := by
    rw [List.filter_eq_nil_iff]
    intro l hl
    by_cases hs : skipLabel l = true
    · simp [hs]
    · have hs' : skipLabel l = false := by simpa using hs
      have hmemNE : l.name ∈ sheetNamesNE (syncAllLabels true s).1.sheet := by
        rw [hlab] at hl
        rcases List.mem_append.1 hl with hm | hm
        · exact (hSiff l.name).2 (Or.inr (Or.inl ⟨l, hm, rfl, hs'⟩))
        · rcases hext l hm with ⟨_, hcalls, _⟩
          rcases syncCalls_sub hwf hcalls with ⟨habs, hNE | hanc⟩
          · exact (hSiff l.name).2 (Or.inl hNE)
          · exact (hSiff l.name).2 (Or.inr (Or.inr
              ⟨hanc, habs, nameSkip_false_of_skipLabel_false hs'⟩))
      have hiso := sheetLabelMapOf_isSome.2 hmemNE
      simp [hiso]
  rcases step3_char (sheetLabelMapOf (syncAllLabels true s).1.sheet)
      (((sheetLabelMapOf (syncAllLabels true s).1.sheet).foldl
        (syncProcessName true (getLabelMap true (syncAllLabels true s).1.gmail))
        ((syncAllLabels true s).1, [])).1.gmail.labels)
      ((sheetLabelMapOf (syncAllLabels true s).1.sheet).foldl
        (syncProcessName true (getLabelMap true (syncAllLabels true s).1.gmail))
        ((syncAllLabels true s).1, [])) with ⟨_, _, t3⟩
  have hev2 : (syncAllLabels true (syncAllLabels true s).1).2 = [] := by
    rw [syncAllLabels_true_eq (syncAllLabels true s).1, t3, hmidev]
    have hlabs : (((sheetLabelMapOf (syncAllLabels true s).1.sheet).foldl
        (syncProcessName true (getLabelMap true (syncAllLabels true s).1.gmail))
        ((syncAllLabels true s).1, [])).1.gmail.labels) =
        (syncAllLabels true s).1.gmail.labels := congrArg GmailState.labels hmidg
    rw [hlabs, F3]
    rfl
  rw [hev2]
  exact ⟨rfl, rfl⟩

/-- C6 witness: starting from a sheet holding the nested name "A/B" and an
empty Gmail store, the first pass creates "A" and "A/B"; the second pass
creates nothing and appends nothing. -/
theorem claim_C6_witness :
    gmailWfB (St.mk [SheetRow.mk "" "A/B"] (GmailState.mk [] [] 0)).gmail = true ∧
    sheetWfB (St.mk [SheetRow.mk "" "A/B"] (GmailState.mk [] [] 0)).sheet = true ∧
    (createdInGmailOf (syncAllLabels true (syncAllLabels true
        (St.mk [SheetRow.mk "" "A/B"] (GmailState.mk [] [] 0))).1).2 = [] ∧
     addedToSheetOf (syncAllLabels true (syncAllLabels true
        (St.mk [SheetRow.mk "" "A/B"] (GmailState.mk [] [] 0))).1).2 = []) :=
  ⟨by decide, by decide,
    claim_C6 (St.mk [SheetRow.mk "" "A/B"] (GmailState.mk [] [] 0))
      (by decide) (by decide)⟩

/-- The re-tagging folds never touch the label list. -/
theorem addBatch_fold_labels (nm : String) :
    ∀ (bs : List (List Nat)) (acc : GmailState × List Ev),
      (bs.foldl (addBatchStep nm) acc).1.labels = acc.1.labels := by
  intro bs
  induction bs with
  | nil => intro acc; rfl
  | cons b bs ih =>
    intro acc
    rw [List.foldl_cons]
    by_cases hlen : b.length > 0
    · have hstep : addBatchStep nm acc b =
          ((acc.1.addToThreads nm b).1, acc.2 ++ (acc.1.addToThreads nm b).2) := by
        unfold addBatchStep
        rw [if_pos hlen]
      rw [hstep, ih]
      exact addToThreads_labels acc.1 nm b
    · have hstep : addBatchStep nm acc b = acc := by
        unfold addBatchStep
        rw [if_neg hlen]
      rw [hstep]
      exact ih acc

theorem removeBatch_fold_labels (nm : String) :
    ∀ (bs : List (List Nat)) (acc : GmailState × List Ev),
      (bs.foldl (removeBatchStep nm) acc).1.labels = acc.1.labels := by
  intro bs
  induction bs with
  | nil => intro acc; rfl
  | cons b bs ih =>
    intro acc
    rw [List.foldl_cons]
    by_cases hlen : b.length > 0
    · have hstep : removeBatchStep nm acc b =
          ((acc.1.removeFromThreads nm b).1, acc.2 ++ (acc.1.removeFromThreads nm b).2) := by
        unfold removeBatchStep
        rw [if_pos hlen]
      rw [hstep, ih]
      exact removeFromThreads_labels acc.1 nm b
    · have hstep : removeBatchStep nm acc b = acc := by
        unfold removeBatchStep
        rw [if_neg hlen]
      rw [hstep]
      exact ih acc

theorem hasName_congr {g g' : GmailState} (h : g'.labels = g.labels) (x : String) :
    g'.hasName x = g.hasName x := by
  unfold GmailState.hasName
  rw [h]

theorem localHas_of_map_name {a b : List SheetRow}
    (h : a.map (fun r => r.nameCell) = b.map (fun r => r.nameCell))
    {n : String} (hb : localHas b n = true) : localHas a n = true := by
  rcases localHas_iff.1 hb with ⟨r, hr, he⟩
  have hmem : n ∈ a.map (fun r => r.nameCell) := by
    rw [h]
    exact List.mem_map.2 ⟨r, hr, he⟩
  rcases List.mem_map.1 hmem with ⟨r', hr', he'⟩
  exact localHas_iff.2 ⟨r', hr', he'⟩

/-- createLabel on the fresh path: the remote store is the ancestors pass's
store with the label itself created; the sheet names are the ancestors pass's
names; the events are the ancestor events followed by the creation events. -/
theorem createLabel_none_char (ok : Bool) (s : St) (row : Nat) (name : String)
    (h : getLabelId ok s.gmail name = none) :
    (createLabel ok s row name).1.gmail =
      ((addParentLabelsToSheet ok s name).1.gmail.createLabel name).1 ∧
    (createLabel ok s row name).1.sheet.map (fun r => r.nameCell) =
      (addParentLabelsToSheet ok s name).1.sheet.map (fun r => r.nameCell) ∧
    (createLabel ok s row name).2 =
      (addParentLabelsToSheet ok s name).2 ++
        ((addParentLabelsToSheet ok s name).1.gmail.createLabel name).2 := by
  simp only [createLabel, h]
  rcases hq : getLabelId ok
      ((addParentLabelsToSheet ok s name).1.gmail.createLabel name).1 name with _ | nid
  · simp only [hq]
    exact ⟨by trivial, by trivial, by trivial⟩
  · simp only [hq]
    refine ⟨by trivial, ?_, by trivial⟩
    rw [setIdCell_map_name]

/-- updateLabel on the rename path: for every name other than the old one the
remote presence is that of the ancestors pass's store with the new label
created, and the sheet names are the ancestors pass's names. -/
theorem updateLabel_char (s : St) (row : Nat) (old nw : String) {v : String}
    (hold : getLabelId true s.gmail old = some v) :
    (∀ x, x ≠ old →
      (updateLabel true s row old nw).1.gmail.hasName x =
        ((addParentLabelsToSheet true s nw).1.gmail.createLabel nw).1.hasName x) ∧
    (updateLabel true s row old nw).1.sheet.map (fun r => r.nameCell) =
      (addParentLabelsToSheet true s nw).1.sheet.map (fun r => r.nameCell) := by
  simp only [updateLabel, hold]
  rcases hq : getLabelId true
      ((addParentLabelsToSheet true s nw).1.gmail.createLabel nw).1 nw with _ | nid
  · simp only [hq]
    exact ⟨fun x _ => by trivial, by trivial⟩
  · simp only [hq]
    rcases ho : ((addParentLabelsToSheet true s nw).1.gmail.createLabel
        nw).1.getUserLabelByName old with _ | lo
    · simp only [ho]
      exact ⟨fun x _ => by trivial, by trivial⟩
    · rcases hn2 : ((addParentLabelsToSheet true s nw).1.gmail.createLabel
          nw).1.getUserLabelByName nw with _ | ln
      · simp only [ho, hn2]
        exact ⟨fun x _ => by trivial, by trivial⟩
      · simp only [ho, hn2]
        constructor
        · intro x hx
          simp only [setIdCell_gmail]
          rw [gdelete_hasName_other hx]
          exact hasName_congr
            (by rw [removeBatch_fold_labels, addBatch_fold_labels]) x
        · rw [setIdCell_map_name]

/-- C4 amended: for a name with no '/', no ancestor creation is attempted; on
Create, when the name already resolves remotely the row merely adopts the
existing id and NO ancestor creation is attempted (the hierarchy guarantee
does not hold on this adopt path); on the fresh-create path and on the Rename
path (provided the old name is not itself a proper ancestor of the new name),
after the operation completes every proper ancestor path of the nested name
exists in both the remote store and the local store; and on the fresh-create
path the missing ancestors are created shallowest-first (in root-to-leaf
order), before the label itself. -/
theorem claim_C4_amended (ok : Bool) (s : St) (row : Nat) (name old : String) :
    (hasSlash name = false → addParentLabelsToSheet ok s name = (s, [])) ∧
    (∀ lid, getLabelId ok s.gmail name = some lid →
      createLabel ok s row name = (setIdCell s row lid, [])) ∧
    (getLabelId true s.gmail name = none → hasSlash name = true →
      ∀ p ∈ ancestorPaths name,
        (createLabel true s row name).1.gmail.hasName p = true ∧
        localHas (createLabel true s row name).1.sheet p = true) ∧
    (∀ v, getLabelId true s.gmail old = some v → hasSlash name = true →
      old ∉ ancestorPaths name →
      ∀ p ∈ ancestorPaths name,
        (updateLabel true s row old name).1.gmail.hasName p = true ∧
        localHas (updateLabel true s row old name).1.sheet p = true) ∧
    (gmailWfB s.gmail = true → getLabelId true s.gmail name = none →
      hasSlash name = true → (ancestorPaths name).Nodup →
      name ∉ ancestorPaths name →
      createdInGmailOf (createLabel true s row name).2 =
        (ancestorPaths name).filter (fun p => !s.gmail.hasName p) ++ [name]) := by
  refine ⟨?_, ?_, ?_, ?_, ?_⟩
  · intro h
    exact addParents_not_nested h
  · intro lid h
    unfold createLabel
    rw [h]
  · intro hnone hs p hp
    rcases createLabel_none_char true s row name hnone with ⟨hg, hsh, _⟩
    have hanc := addParents_invariant s name hs p hp
    constructor
    · rw [hg]
      exact gcreate_hasName_mono name hanc.1
    · exact localHas_of_map_name hsh hanc.2
  · intro v hold hs hnot p hp
    rcases updateLabel_char s row old name hold with ⟨hg, hsh⟩
    have hanc := addParents_invariant s name hs p hp
    have hpo : p ≠ old := fun hc => hnot (hc ▸ hp)
    constructor
    · rw [hg p hpo]
      exact gcreate_hasName_mono name hanc.1
    · exact localHas_of_map_name hsh hanc.2
  · intro hwf hnone hs hnd hnotin
    rcases createLabel_none_char true s row name hnone with ⟨_, _, hev⟩
    rw [hev, createdInGmailOf_append, addParents_events_nested s name hs hnd]
    have hnn : s.gmail.hasName name = false := (getLabelId_none_iff hwf).1 hnone
    rcases addParents_ext true s name with ⟨extL, extS, hL, hLp, _, _, _⟩
    have hpe : (addParentLabelsToSheet true s name).1.gmail.hasName name = false := by
      rw [hasName_false_iff]
      intro hmem
      rcases List.mem_map.1 hmem with ⟨l, hl, hln⟩
      rw [hL] at hl
      rcases List.mem_append.1 hl with hm | hm
      · exact absurd (hasName_iff.2 (List.mem_map.2 ⟨l, hm, hln⟩))
          (by rw [hnn]; simp)
      · exact hnotin (hln ▸ (hLp l hm).2.1)
    rw [gcreate_events_of_not_hasName hpe]
    simp [createdInGmailOf]

/-- C4 amended witness: exercising all five branches — a slash-free name does
no ancestor work; a Create of "A/B" that already exists remotely only adopts
the id "L7"; a fresh Create of "A/B" puts "A" in both stores; a Rename of
"Old" to "A/B" puts "A" in both stores; the fresh Create of "A/B" on an empty
remote store emits the ancestor creation "A" before "A/B". -/
theorem claim_C4_amended_witness :
    (addParentLabelsToSheet true (St.mk [] (GmailState.mk [] [] 0)) "Solo" =
      (St.mk [] (GmailState.mk [] [] 0), [])) ∧
    (createLabel true (St.mk [SheetRow.mk "" "A/B"]
        (GmailState.mk [RemoteLabel.mk "L7" "A/B" LabelType.user] [] 0)) 0 "A/B" =
      (setIdCell (St.mk [SheetRow.mk "" "A/B"]
        (GmailState.mk [RemoteLabel.mk "L7" "A/B" LabelType.user] [] 0)) 0 "L7", [])) ∧
    (∀ p ∈ ancestorPaths "A/B",
      (createLabel true (St.mk [SheetRow.mk "" "A/B"]
        (GmailState.mk [] [] 0)) 0 "A/B").1.gmail.hasName p = true ∧
      localHas (createLabel true (St.mk [SheetRow.mk "" "A/B"]
        (GmailState.mk [] [] 0)) 0 "A/B").1.sheet p = true) ∧
    (∀ p ∈ ancestorPaths "A/B",
      (updateLabel true (St.mk [SheetRow.mk "L1" "Old"]
        (GmailState.mk [RemoteLabel.mk "L1" "Old" LabelType.user] [] 0))
        0 "Old" "A/B").1.gmail.hasName p = true ∧
      localHas (updateLabel true (St.mk [SheetRow.mk "L1" "Old"]
        (GmailState.mk [RemoteLabel.mk "L1" "Old" LabelType.user] [] 0))
        0 "Old" "A/B").1.sheet p = true) ∧
    (createdInGmailOf (createLabel true (St.mk [SheetRow.mk "" "A/B"]
        (GmailState.mk [] [] 0)) 0 "A/B").2 =
      (ancestorPaths "A/B").filter
        (fun p => !(GmailState.mk [] [] 0).hasName p) ++ ["A/B"]) :=
  ⟨(claim_C4_amended true (St.mk [] (GmailState.mk [] [] 0)) 0 "Solo" "x").1
      (by decide),
   (claim_C4_amended true (St.mk [SheetRow.mk "" "A/B"]
       (GmailState.mk [RemoteLabel.mk "L7" "A/B" LabelType.user] [] 0)) 0
       "A/B" "x").2.1 "L7" (by decide),
   (claim_C4_amended true (St.mk [SheetRow.mk "" "A/B"]
       (GmailState.mk [] [] 0)) 0 "A/B" "x").2.2.1 (by decide) (by decide),
   (claim_C4_amended true (St.mk [SheetRow.mk "L1" "Old"]
       (GmailState.mk [RemoteLabel.mk "L1" "Old" LabelType.user] [] 0)) 0
       "A/B" "Old").2.2.2.1 "L1" (by decide) (by decide) (by decide),
   (claim_C4_amended true (St.mk [SheetRow.mk "" "A/B"]
       (GmailState.mk [] [] 0)) 0 "A/B" "x").2.2.2.2 (by decide) (by decide)
       (by decide) (by decide) (by decide)⟩

theorem userLabel_hasName {g : GmailState} {n : String} {l : RemoteLabel}
    (h : g.getUserLabelByName n = some l) :
    g.hasName n = true ∧ l.name = n ∧ l.ltype = LabelType.user := by
  unfold GmailState.getUserLabelByName at h
  have hm := List.mem_of_find?_eq_some h
  have hp := List.find?_some h
  simp only [Bool.and_eq_true, beq_iff_eq] at hp
  exact ⟨hasName_iff.2 (List.mem_map.2 ⟨l, hm, hp.1⟩), hp.1, hp.2⟩

theorem userLabel_append_some {g g' : GmailState} {m : String} {l : RemoteLabel}
    (ext : List RemoteLabel) (hE : g'.labels = g.labels ++ ext)
    (h : g.getUserLabelByName m = some l) : g'.getUserLabelByName m = some l := by
  unfold GmailState.getUserLabelByName at h ⊢
  rw [hE, List.find?_append, h]
  rfl

/-- A name absent remotely and not an ancestor of the processed name stays
absent through the ancestors pass. -/
theorem addParents_hasName_other (ok : Bool) (s : St) (nm : String) {x : String}
    (hx : s.gmail.hasName x = false) (hnot : x ∉ ancestorPaths nm) :
    (addParentLabelsToSheet ok s nm).1.gmail.hasName x = false := by
  rcases addParents_ext ok s nm with ⟨extL, extS, hL, hLp, _, _, _⟩
  rw [hasName_false_iff] at hx ⊢
  intro hmem
  rcases List.mem_map.1 hmem with ⟨l, hl, hln⟩
  rw [hL] at hl
  rcases List.mem_append.1 hl with hm | hm
  · exact hx (List.mem_map.2 ⟨l, hm, hln⟩)
  · exact hnot (hln ▸ (hLp l hm).2.1)

theorem addBatch_fold_evs (nm : String) :
    ∀ (bs : List (List Nat)) (acc : GmailState × List Ev),
      (∀ b ∈ bs, b ≠ []) →
      (bs.foldl (addBatchStep nm) acc).2 =
        acc.2 ++ bs.map (fun b => Ev.addTags nm b) := by
  intro bs
  induction bs with
  | nil => intro acc _; simp
  | cons b bs ih =>
    intro acc hne
    have hb : b ≠ [] := hne b (List.mem_cons_self _ _)
    have hlen : b.length > 0 := List.length_pos.2 hb
    have hstep : addBatchStep nm acc b =
        ((acc.1.addToThreads nm b).1, acc.2 ++ [Ev.addTags nm b]) := by
      unfold addBatchStep
      rw [if_pos hlen]
      rfl
    rw [List.foldl_cons, hstep, ih _ (fun x hx => hne x (List.mem_cons_of_mem _ hx))]
    simp [List.append_assoc]

theorem removeBatch_fold_evs (nm : String) :
    ∀ (bs : List (List Nat)) (acc : GmailState × List Ev),
      (∀ b ∈ bs, b ≠ []) →
      (bs.foldl (removeBatchStep nm) acc).2 =
        acc.2 ++ bs.map (fun b => Ev.removeTags nm b) := by
  intro bs
  induction bs with
  | nil => intro acc _; simp
  | cons b bs ih =>
    intro acc hne
    have hb : b ≠ [] := hne b (List.mem_cons_self _ _)
    have hlen : b.length > 0 := List.length_pos.2 hb
    have hstep : removeBatchStep nm acc b =
        ((acc.1.removeFromThreads nm b).1, acc.2 ++ [Ev.removeTags nm b]) := by
      unfold removeBatchStep
      rw [if_pos hlen]
      rfl
    rw [List.foldl_cons, hstep, ih _ (fun x hx => hne x (List.mem_cons_of_mem _ hx))]
    simp [List.append_assoc]

/-- C5: on a Rename whose old label resolves to a user-label handle and whose
new name is fresh, the old label's threads are re-tagged in batches of
BATCH_SIZE = 100 (the batches partition the thread list in order, every batch
has between 1 and 100 threads), the new label is added to all batches before
the old label is removed from any batch, afterwards the old label is deleted,
and the row's id cell receives the freshly created new label's id. -/
theorem claim_C5 (s : St) (row : Nat) (old nw : String) (oldL : RemoteLabel)
    (hwf : gmailWfB s.gmail = true)
    (hold : s.gmail.getUserLabelByName old = some oldL)
    (huser : ∀ l ∈ s.gmail.labels, l.name = old → l.ltype = LabelType.user)
    (hnew : s.gmail.hasName nw = false)
    (hdiff : old ≠ nw)
    (hnotanc : nw ∉ ancestorPaths nw)
    (holdanc : old ∉ ancestorPaths nw) :
    ((chunksOf 100 (s.gmail.search old)).flatten = s.gmail.search old) ∧
    (∀ b ∈ chunksOf 100 (s.gmail.search old), 1 ≤ b.length ∧ b.length ≤ 100) ∧
    ((updateLabel true s row old nw).2 =
      (addParentLabelsToSheet true s nw).2 ++ [Ev.createRemote nw] ++
        (chunksOf 100 (s.gmail.search old)).map (fun b => Ev.addTags nw b) ++
        (chunksOf 100 (s.gmail.search old)).map (fun b => Ev.removeTags old b) ++
        [Ev.deleteRemote old]) ∧
    ((updateLabel true s row old nw).1.gmail.hasName old = false) ∧
    (getLabelId true ((addParentLabelsToSheet true s nw).1.gmail.createLabel nw).1 nw =
      some ("L" ++ toString (addParentLabelsToSheet true s nw).1.gmail.nextId)) ∧
    (row < s.sheet.length →
      ((updateLabel true s row old nw).1.sheet[row]?).map (fun r => r.idCell) =
        some ("L" ++ toString (addParentLabelsToSheet true s nw).1.gmail.nextId)) := by
  have holdname : s.gmail.hasName old = true := (userLabel_hasName hold).1
  rcases Option.isSome_iff_exists.1 (getLabelId_of_hasName hwf holdname) with ⟨v, hv⟩
  rcases addParents_ext true s nw with ⟨extL, extS, hL, hLp, hS, hSp, hT⟩
  have hpeF : (addParentLabelsToSheet true s nw).1.gmail.hasName nw = false :=
    addParents_hasName_other true s nw hnew hnotanc
  have hge := gcreate_of_not_hasName hpeF
  have hgeL : ((addParentLabelsToSheet true s nw).1.gmail.createLabel nw).1.labels =
      (addParentLabelsToSheet true s nw).1.gmail.labels ++
        [⟨"L" ++ toString (addParentLabelsToSheet true s nw).1.gmail.nextId, nw,
          LabelType.user⟩] := by
    rw [hge]
  have hgeE : ((addParentLabelsToSheet true s nw).1.gmail.createLabel nw).2 =
      [Ev.createRemote nw] := by
    rw [hge]
  have huni : ∀ l' ∈ ((addParentLabelsToSheet true s nw).1.gmail.createLabel nw).1.labels,
      l'.name = nw →
      l' = ⟨"L" ++ toString (addParentLabelsToSheet true s nw).1.gmail.nextId, nw,
        LabelType.user⟩ := by
    intro l' hl' hn'
    rw [hgeL] at hl'
    rcases List.mem_append.1 hl' with hm | hm
    · exact absurd (hasName_iff.2 (List.mem_map.2 ⟨l', hm, hn'⟩)) (by rw [hpeF]; simp)
    · simpa using hm
  have hmem : (⟨"L" ++ toString (addParentLabelsToSheet true s nw).1.gmail.nextId,
      nw, LabelType.user⟩ : RemoteLabel) ∈
      ((addParentLabelsToSheet true s nw).1.gmail.createLabel nw).1.labels := by
    rw [hgeL]
    exact List.mem_append.2 (Or.inr (by simp))
  have h2 : getLabelId true ((addParentLabelsToSheet true s nw).1.gmail.createLabel
      nw).1 nw =
      some ("L" ++ toString (addParentLabelsToSheet true s nw).1.gmail.nextId) :=
    getLabelId_unique hmem rfl (lprefix_ne_empty _) huni
  have h3 : ((addParentLabelsToSheet true s nw).1.gmail.createLabel
      nw).1.getUserLabelByName old = some oldL := by
    refine userLabel_append_some (extL ++
      [⟨"L" ++ toString (addParentLabelsToSheet true s nw).1.gmail.nextId, nw,
        LabelType.user⟩]) ?_ hold
    rw [hgeL, hL, List.append_assoc]
  have h4 : ((addParentLabelsToSheet true s nw).1.gmail.createLabel
      nw).1.getUserLabelByName nw =
      some ⟨"L" ++ toString (addParentLabelsToSheet true s nw).1.gmail.nextId, nw,
        LabelType.user⟩ := by
    unfold GmailState.getUserLabelByName
    rw [hgeL, List.find?_append]
    have hpre : (addParentLabelsToSheet true s nw).1.gmail.labels.find?
        (fun l => l.name == nw && l.ltype == LabelType.user) = none := by
      rw [List.find?_eq_none]
      intro l hl hc
      simp only [Bool.and_eq_true, beq_iff_eq] at hc
      exact absurd (hasName_iff.2 (List.mem_map.2 ⟨l, hl, hc.1⟩)) (by rw [hpeF]; simp)
    rw [hpre]
    simp [List.find?]
  have hsearch : (addParentLabelsToSheet true s nw).1.gmail.search old =
      s.gmail.search old := by
    unfold GmailState.search
    rw [hT]
  have hne : ∀ b ∈ chunksOf 100 (s.gmail.search old), b ≠ [] := fun b hb =>
    List.length_pos.1 (mem_chunksOf 100 (by omega) _ b hb).1
  refine ⟨chunksOf_join 100 (by omega) _,
    fun b hb => mem_chunksOf 100 (by omega) _ b hb, ?_, ?_, h2, ?_⟩
  · simp only [updateLabel, hv, h2, h3, h4]
    rw [hsearch, gdelete_events, removeBatch_fold_evs old _ _ hne,
      addBatch_fold_evs nw _ _ hne, hgeE]
  · simp only [updateLabel, hv, h2, h3, h4]
    simp only [setIdCell_gmail]
    apply gdelete_hasName_self
    intro l hl hn
    rw [removeBatch_fold_labels, addBatch_fold_labels, hgeL, hL] at hl
    rcases List.mem_append.1 hl with hm | hm
    · rcases List.mem_append.1 hm with hm' | hm'
      · exact huser l hm' hn
      · exact (hLp l hm').1
    · have hl' : l = ⟨"L" ++ toString (addParentLabelsToSheet true s
          nw).1.gmail.nextId, nw, LabelType.user⟩ := by
        simpa using hm
      subst hl'
      exact absurd hn.symm hdiff
  · intro hrow
    simp only [updateLabel, hv, h2, h3, h4]
    show ((updateRow (addParentLabelsToSheet true s nw).1.sheet row
        (fun r =>
          { r with idCell :=
              "L" ++ toString (addParentLabelsToSheet true s nw).1.gmail.nextId }))[row]?).map
        (fun r => r.idCell) =
      some ("L" ++ toString (addParentLabelsToSheet true s nw).1.gmail.nextId)
    rw [updateRow_getElem?, hS, List.getElem?_append_left hrow,
      List.getElem?_eq_getElem hrow]
    simp

set_option maxRecDepth 10000 in
/-- C5 witness: renaming "Old" (250 tagged threads) to "Stuff" on a one-label
store satisfies every hypothesis; the batching yields chunk sizes
[100, 100, 50], adds all batches before removing any, deletes "Old", and
writes the new label's id into row 0. -/
theorem claim_C5_witness :
    gmailWfB (GmailState.mk [RemoteLabel.mk "L1" "Old" LabelType.user]
      [("Old", List.range 250)] 0) = true ∧
    (GmailState.mk [RemoteLabel.mk "L1" "Old" LabelType.user]
      [("Old", List.range 250)] 0).getUserLabelByName "Old" =
      some (RemoteLabel.mk "L1" "Old" LabelType.user) ∧
    (∀ l ∈ (GmailState.mk [RemoteLabel.mk "L1" "Old" LabelType.user]
      [("Old", List.range 250)] 0).labels,
      l.name = "Old" → l.ltype = LabelType.user) ∧
    (GmailState.mk [RemoteLabel.mk "L1" "Old" LabelType.user]
      [("Old", List.range 250)] 0).hasName "Stuff" = false ∧
    "Old" ≠ "Stuff" ∧
    "Stuff" ∉ ancestorPaths "Stuff" ∧
    "Old" ∉ ancestorPaths "Stuff" ∧
    (chunksOf 100 ((GmailState.mk [RemoteLabel.mk "L1" "Old" LabelType.user]
      [("Old", List.range 250)] 0).search "Old")).map (fun b => b.length) =
      [100, 100, 50] ∧
    (((chunksOf 100 ((St.mk [SheetRow.mk "L1" "Old"]
        (GmailState.mk [RemoteLabel.mk "L1" "Old" LabelType.user]
          [("Old", List.range 250)] 0)).gmail.search "Old")).flatten =
      (St.mk [SheetRow.mk "L1" "Old"]
        (GmailState.mk [RemoteLabel.mk "L1" "Old" LabelType.user]
          [("Old", List.range 250)] 0)).gmail.search "Old") ∧
    (∀ b ∈ chunksOf 100 ((St.mk [SheetRow.mk "L1" "Old"]
        (GmailState.mk [RemoteLabel.mk "L1" "Old" LabelType.user]
          [("Old", List.range 250)] 0)).gmail.search "Old"),
      1 ≤ b.length ∧ b.length ≤ 100) ∧
    ((updateLabel true (St.mk [SheetRow.mk "L1" "Old"]
        (GmailState.mk [RemoteLabel.mk "L1" "Old" LabelType.user]
          [("Old", List.range 250)] 0)) 0 "Old" "Stuff").2 =
      (addParentLabelsToSheet true (St.mk [SheetRow.mk "L1" "Old"]
        (GmailState.mk [RemoteLabel.mk "L1" "Old" LabelType.user]
          [("Old", List.range 250)] 0)) "Stuff").2 ++ [Ev.createRemote "Stuff"] ++
        (chunksOf 100 ((St.mk [SheetRow.mk "L1" "Old"]
          (GmailState.mk [RemoteLabel.mk "L1" "Old" LabelType.user]
            [("Old", List.range 250)] 0)).gmail.search "Old")).map
          (fun b => Ev.addTags "Stuff" b) ++
        (chunksOf 100 ((St.mk [SheetRow.mk "L1" "Old"]
          (GmailState.mk [RemoteLabel.mk "L1" "Old" LabelType.user]
            [("Old", List.range 250)] 0)).gmail.search "Old")).map
          (fun b => Ev.removeTags "Old" b) ++
        [Ev.deleteRemote "Old"]) ∧
    ((updateLabel true (St.mk [SheetRow.mk "L1" "Old"]
        (GmailState.mk [RemoteLabel.mk "L1" "Old" LabelType.user]
          [("Old", List.range 250)] 0)) 0 "Old" "Stuff").1.gmail.hasName "Old" =
      false) ∧
    (getLabelId true ((addParentLabelsToSheet true (St.mk [SheetRow.mk "L1" "Old"]
        (GmailState.mk [RemoteLabel.mk "L1" "Old" LabelType.user]
          [("Old", List.range 250)] 0)) "Stuff").1.gmail.createLabel "Stuff").1
        "Stuff" =
      some ("L" ++ toString (addParentLabelsToSheet true (St.mk [SheetRow.mk "L1" "Old"]
        (GmailState.mk [RemoteLabel.mk "L1" "Old" LabelType.user]
          [("Old", List.range 250)] 0)) "Stuff").1.gmail.nextId)) ∧
    (0 < (St.mk [SheetRow.mk "L1" "Old"]
        (GmailState.mk [RemoteLabel.mk "L1" "Old" LabelType.user]
          [("Old", List.range 250)] 0)).sheet.length →
      ((updateLabel true (St.mk [SheetRow.mk "L1" "Old"]
        (GmailState.mk [RemoteLabel.mk "L1" "Old" LabelType.user]
          [("Old", List.range 250)] 0)) 0 "Old" "Stuff").1.sheet[0]?).map
        (fun r => r.idCell) =
      some ("L" ++ toString (addParentLabelsToSheet true (St.mk [SheetRow.mk "L1" "Old"]
        (GmailState.mk [RemoteLabel.mk "L1" "Old" LabelType.user]
          [("Old", List.range 250)] 0)) "Stuff").1.gmail.nextId))) :=
  ⟨by decide, by decide, by decide, by decide, by decide, by decide, by decide,
   by decide,
   claim_C5 (St.mk [SheetRow.mk "L1" "Old"]
       (GmailState.mk [RemoteLabel.mk "L1" "Old" LabelType.user]
         [("Old", List.range 250)] 0)) 0 "Old" "Stuff"
       (RemoteLabel.mk "L1" "Old" LabelType.user)
       (by decide) (by decide) (by decide) (by decide) (by decide) (by decide)
       (by decide)⟩

/-- C10: the rename path creates the new label remotely right after the
ancestors pass — before any re-tagging and before deleting the old label —
and when the user-label handle lookup for the old name fails after that
creation, updateLabel returns early: the emitted events are exactly the
ancestor events plus the creation of the new name (no tag moves, no
deletion), the old label is still present with its tag assignments intact,
the newly created label is retained remotely, and every pre-existing sheet
row — in particular its id cell — is unchanged. -/
theorem claim_C10 (s : St) (row : Nat) (old nw : String) (oid : String)
    (hold : getLabelId true s.gmail old = some oid)
    (holdU : s.gmail.getUserLabelByName old = none)
    (hnew : s.gmail.hasName nw = false)
    (hnotanc : nw ∉ ancestorPaths nw)
    (holdanc : old ∉ ancestorPaths nw) :
    ((updateLabel true s row old nw).2 =
      (addParentLabelsToSheet true s nw).2 ++ [Ev.createRemote nw]) ∧
    (∀ e ∈ (updateLabel true s row old nw).2,
      (∃ n, e = Ev.createRemote n) ∨ (∃ n, e = Ev.appendRow n)) ∧
    ((updateLabel true s row old nw).1.gmail.hasName old = true) ∧
    ((updateLabel true s row old nw).1.gmail.search old = s.gmail.search old) ∧
    ((updateLabel true s row old nw).1.gmail.hasName nw = true) ∧
    (row < s.sheet.length →
      (updateLabel true s row old nw).1.sheet[row]? = s.sheet[row]?) := by
  have holdname : s.gmail.hasName old = true := getLabelId_some_hasName hold
  have hno : nw ≠ old := by
    intro hc
    rw [hc, holdname] at hnew
    exact absurd hnew (by simp)
  rcases addParents_ext true s nw with ⟨extL, extS, hL, hLp, hS, hSp, hT⟩
  have hpeF : (addParentLabelsToSheet true s nw).1.gmail.hasName nw = false :=
    addParents_hasName_other true s nw hnew hnotanc
  have hge := gcreate_of_not_hasName hpeF
  have hgeL : ((addParentLabelsToSheet true s nw).1.gmail.createLabel nw).1.labels =
      (addParentLabelsToSheet true s nw).1.gmail.labels ++
        [⟨"L" ++ toString (addParentLabelsToSheet true s nw).1.gmail.nextId, nw,
          LabelType.user⟩] := by
    rw [hge]
  have hgeE : ((addParentLabelsToSheet true s nw).1.gmail.createLabel nw).2 =
      [Ev.createRemote nw] := by
    rw [hge]
  have hone : ((addParentLabelsToSheet true s nw).1.gmail.createLabel
      nw).1.getUserLabelByName old = none := by
    unfold GmailState.getUserLabelByName at holdU ⊢
    rw [hgeL, hL, List.find?_append, List.find?_append, holdU]
    have hext : extL.find? (fun l => l.name == old && l.ltype == LabelType.user) =
        none := by
      rw [List.find?_eq_none]
      intro l hl hc
      simp only [Bool.and_eq_true, beq_iff_eq] at hc
      exact holdanc (hc.1 ▸ (hLp l hl).2.1)
    rw [hext]
    have hbe : (nw == old) = false := beq_eq_false_iff_ne.2 hno
    simp [List.find?, hbe]
  have hres : updateLabel true s row old nw =
      ({ (addParentLabelsToSheet true s nw).1 with
          gmail := ((addParentLabelsToSheet true s nw).1.gmail.createLabel nw).1 },
       (addParentLabelsToSheet true s nw).2 ++
         ((addParentLabelsToSheet true s nw).1.gmail.createLabel nw).2) := by
    simp only [updateLabel, hold]
    rcases hq : getLabelId true
        ((addParentLabelsToSheet true s nw).1.gmail.createLabel nw).1 nw with _ | nid
    · simp only [hq]
    · simp only [hq, hone]
  refine ⟨?_, ?_, ?_, ?_, ?_, ?_⟩
  · rw [hres, hgeE]
  · intro e he
    rw [hres] at he
    rcases List.mem_append.1 he with he' | he'
    · exact addParents_events_shape true s nw e he'
    · rw [hgeE] at he'
      exact Or.inl ⟨nw, by simpa using he'⟩
  · rw [hres]
    exact gcreate_hasName_mono nw (hasName_append_mono hL holdname)
  · rw [hres]
    show ((addParentLabelsToSheet true s nw).1.gmail.createLabel nw).1.search old =
      s.gmail.search old
    rw [gcreate_search]
    unfold GmailState.search
    rw [hT]
  · rw [hres]
    exact gcreate_hasName_self _ nw
  · intro hrow
    rw [hres]
    show (addParentLabelsToSheet true s nw).1.sheet[row]? = s.sheet[row]?
    rw [hS, List.getElem?_append_left hrow]

/-- C10 witness: renaming the system label "INBOX" (one tagged thread) to
"Stuff" — the id lookup succeeds through the name→id map but
getUserLabelByName returns no handle for a system label, so the operation
creates "Stuff", then stops: "INBOX" and its tag survive, "Stuff" exists,
and row 0 is untouched. -/
theorem claim_C10_witness :
    getLabelId true (GmailState.mk [RemoteLabel.mk "S1" "INBOX" LabelType.system]
      [("INBOX", [5])] 0) "INBOX" = some "S1" ∧
    (GmailState.mk [RemoteLabel.mk "S1" "INBOX" LabelType.system]
      [("INBOX", [5])] 0).getUserLabelByName "INBOX" = none ∧
    (GmailState.mk [RemoteLabel.mk "S1" "INBOX" LabelType.system]
      [("INBOX", [5])] 0).hasName "Stuff" = false ∧
    "Stuff" ∉ ancestorPaths "Stuff" ∧
    "INBOX" ∉ ancestorPaths "Stuff" ∧
    (((updateLabel true (St.mk [SheetRow.mk "" "INBOX"]
        (GmailState.mk [RemoteLabel.mk "S1" "INBOX" LabelType.system]
          [("INBOX", [5])] 0)) 0 "INBOX" "Stuff").2 =
      (addParentLabelsToSheet true (St.mk [SheetRow.mk "" "INBOX"]
        (GmailState.mk [RemoteLabel.mk "S1" "INBOX" LabelType.system]
          [("INBOX", [5])] 0)) "Stuff").2 ++ [Ev.createRemote "Stuff"]) ∧
    (∀ e ∈ (updateLabel true (St.mk [SheetRow.mk "" "INBOX"]
        (GmailState.mk [RemoteLabel.mk "S1" "INBOX" LabelType.system]
          [("INBOX", [5])] 0)) 0 "INBOX" "Stuff").2,
      (∃ n, e = Ev.createRemote n) ∨ (∃ n, e = Ev.appendRow n)) ∧
    ((updateLabel true (St.mk [SheetRow.mk "" "INBOX"]
        (GmailState.mk [RemoteLabel.mk "S1" "INBOX" LabelType.system]
          [("INBOX", [5])] 0)) 0 "INBOX" "Stuff").1.gmail.hasName "INBOX" = true) ∧
    ((updateLabel true (St.mk [SheetRow.mk "" "INBOX"]
        (GmailState.mk [RemoteLabel.mk "S1" "INBOX" LabelType.system]
          [("INBOX", [5])] 0)) 0 "INBOX" "Stuff").1.gmail.search "INBOX" =
      (GmailState.mk [RemoteLabel.mk "S1" "INBOX" LabelType.system]
        [("INBOX", [5])] 0).search "INBOX") ∧
    ((updateLabel true (St.mk [SheetRow.mk "" "INBOX"]
        (GmailState.mk [RemoteLabel.mk "S1" "INBOX" LabelType.system]
          [("INBOX", [5])] 0)) 0 "INBOX" "Stuff").1.gmail.hasName "Stuff" = true) ∧
    (0 < (St.mk [SheetRow.mk "" "INBOX"]
        (GmailState.mk [RemoteLabel.mk "S1" "INBOX" LabelType.system]
          [("INBOX", [5])] 0)).sheet.length →
      (updateLabel true (St.mk [SheetRow.mk "" "INBOX"]
        (GmailState.mk [RemoteLabel.mk "S1" "INBOX" LabelType.system]
          [("INBOX", [5])] 0)) 0 "INBOX" "Stuff").1.sheet[0]? =
      (St.mk [SheetRow.mk "" "INBOX"]
        (GmailState.mk [RemoteLabel.mk "S1" "INBOX" LabelType.system]
          [("INBOX", [5])] 0)).sheet[0]?)) :=
  ⟨by decide, by decide, by decide, by decide, by decide,
   claim_C10 (St.mk [SheetRow.mk "" "INBOX"]
       (GmailState.mk [RemoteLabel.mk "S1" "INBOX" LabelType.system]
         [("INBOX", [5])] 0)) 0 "INBOX" "Stuff" "S1"
       (by decide) (by decide) (by decide) (by decide) (by decide)⟩
